import Mathlib

/-!
Verification development for the Springer LNCS auto-formatter
(`springer_formatter`): shallow embedding of the document parser
(`utils/document_parser.py`), style applier (`utils/style_applier.py`),
image processor (`utils/image_processor.py`) and the render pipeline of
`app.py`, together with theorems about the embedded functions.

Strings are modelled as Lean `String` / `List Char`; Python regular
expressions used by the source are embedded as deterministic character
scanners (each regex in the source is simple enough that greedy scanning
agrees with backtracking semantics, as argued in the doc comment of the
corresponding definition).
-/

namespace SpringerFormatter

/-- Model of Python's `\s` character class (ASCII whitespace as used by
`str.strip`, `str.split` and the `\s` escapes in the source's regexes). -/
def pySpace (c : Char) : Bool :=
  c = ' ' || c = '\t' || c = '\n' || c = '\r' || c = '\x0b' || c = '\x0c'

/-- Model of Python's `\d` (ASCII digits). -/
def pyDigit (c : Char) : Bool :=
  '0' ≤ c && c ≤ '9'

/-- Model of the regex class `[A-Z]` (uppercase ASCII letter). -/
def upperAZ (c : Char) : Bool :=
  'A' ≤ c && c ≤ 'Z'

/-- Model of Python's `str.strip()` on a character list: drop ASCII
whitespace from both ends. -/
def pyStrip (l : List Char) : List Char :=
  ((l.dropWhile pySpace).reverse.dropWhile pySpace).reverse

/-- `pyStrip` lifted to `String`. -/
def pyStripS (s : String) : String :=
  String.mk (pyStrip s.data)

/-- Helper for `countTokens`: `b` records whether the previous character
was whitespace (or we are at the start). -/
def countTokensAux : List Char → Bool → Nat
  | [], _ => 0
  | c :: cs, prev =>
    if pySpace c then countTokensAux cs true
    else (if prev then 1 else 0) + countTokensAux cs false

/-- Model of `len(s.split())` in Python: the number of maximal runs of
non-whitespace characters. -/
def countTokens (l : List Char) : Nat :=
  countTokensAux l true

/-- Case-insensitive literal matcher: `litCI w l` consumes the (lowercase)
literal `w` from the front of `l`, comparing each input character after
`Char.toLower`, and returns the rest of `l` on success.  This embeds a
regex literal under the `(?i)` flag. -/
def litCI : List Char → List Char → Option (List Char)
  | [], l => some l
  | _ :: _, [] => none
  | c :: cs, d :: ds => if d.toLower = c then litCI cs ds else none

/-- Consume an optional single character (case-insensitively), embedding a
regex `x?` where the following regex piece cannot start with `x`. -/
def optCharCI (x : Char) : List Char → List Char
  | [] => []
  | d :: ds => if d.toLower = x then ds else d :: ds

/-- True when the rest of the input is only whitespace: embeds a trailing
`\s*$` in a fully anchored pattern. -/
def endSp (l : List Char) : Bool :=
  (l.dropWhile pySpace).isEmpty

/-- Lift an optional scanner result to the final `\s*$` check. -/
def fullAfter : Option (List Char) → Bool
  | some r => endSp r
  | none => false

/-- Consume the optional numbered group `(n\.?\s*)?` of the section
patterns (`document_parser.py` lines 16-21): a literal digit `n`, an
optional dot, then whitespace.  Greedy consumption agrees with the regex
because the following literal always starts with a letter. -/
def optNum (n : Char) : List Char → List Char
  | [] => []
  | c :: cs =>
    if c = n then
      (match cs with
        | '.' :: t => t
        | t => t).dropWhile pySpace
    else c :: cs

/-- Consume `\s*` between two literal words (embeds `related\s*work`
etc.). -/
def thenWordCI (w : List Char) (r : Option (List Char)) : Option (List Char) :=
  match r with
  | some rest => litCI w (rest.dropWhile pySpace)
  | none => none

/-- Embeds `SECTION_PATTERNS['introduction']`
(`(?i)^\s*(1\.?\s*)?introduction\s*$`, document_parser.py line 16). -/
def matchIntroduction (s : String) : Bool :=
  fullAfter (litCI "introduction".data (optNum '1' (s.data.dropWhile pySpace)))

/-- Embeds `SECTION_PATTERNS['related_work']`
(`(?i)^\s*(2\.?\s*)?(related\s*work|literature\s*review|background)\s*$`,
document_parser.py line 17). -/
def matchRelatedWork (s : String) : Bool :=
  let l := optNum '2' (s.data.dropWhile pySpace)
  fullAfter (thenWordCI "work".data (litCI "related".data l)) ||
  fullAfter (thenWordCI "review".data (litCI "literature".data l)) ||
  fullAfter (litCI "background".data l)

/-- Embeds `SECTION_PATTERNS['methodology']`
(`(?i)^\s*(3\.?\s*)?(methodology|proposed\s*(method|approach|system)|method(s)?)\s*$`,
document_parser.py line 18). -/
def matchMethodology (s : String) : Bool :=
  let l := optNum '3' (s.data.dropWhile pySpace)
  fullAfter (litCI "methodology".data l) ||
  fullAfter (thenWordCI "method".data (litCI "proposed".data l)) ||
  fullAfter (thenWordCI "approach".data (litCI "proposed".data l)) ||
  fullAfter (thenWordCI "system".data (litCI "proposed".data l)) ||
  fullAfter ((litCI "method".data l).map (optCharCI 's'))

/-- Embeds `SECTION_PATTERNS['results']`
(`(?i)^\s*(4\.?\s*)?(results?|experiments?|evaluation|experimental\s*results)\s*$`,
document_parser.py line 19). -/
def matchResults (s : String) : Bool :=
  let l := optNum '4' (s.data.dropWhile pySpace)
  fullAfter ((litCI "result".data l).map (optCharCI 's')) ||
  fullAfter ((litCI "experiment".data l).map (optCharCI 's')) ||
  fullAfter (litCI "evaluation".data l) ||
  fullAfter (thenWordCI "results".data (litCI "experimental".data l))

/-- Embeds `SECTION_PATTERNS['discussion']`
(`(?i)^\s*(5\.?\s*)?discussion\s*$`, document_parser.py line 20). -/
def matchDiscussion (s : String) : Bool :=
  fullAfter (litCI "discussion".data (optNum '5' (s.data.dropWhile pySpace)))

/-- Embeds `SECTION_PATTERNS['conclusion']`
(`(?i)^\s*(6\.?\s*)?(conclusion(s)?|summary|future\s*work)\s*$`,
document_parser.py line 21). -/
def matchConclusion (s : String) : Bool :=
  let l := optNum '6' (s.data.dropWhile pySpace)
  fullAfter ((litCI "conclusion".data l).map (optCharCI 's')) ||
  fullAfter (litCI "summary".data l) ||
  fullAfter (thenWordCI "work".data (litCI "future".data l))

/-- Embeds `SECTION_PATTERNS['references']`
(`(?i)^\s*references?\s*$`, document_parser.py line 22).  Note: unlike
the numbered body-section patterns, this pattern has NO optional leading
number group. -/
def matchReferencesPat (s : String) : Bool :=
  fullAfter ((litCI "reference".data (s.data.dropWhile pySpace)).map (optCharCI 's'))

/-- Embeds `SECTION_PATTERNS['acknowledgments']`
(`(?i)^\s*(acknowledge?ments?)\s*$`, document_parser.py line 23). -/
def matchAcknowledgments (s : String) : Bool :=
  fullAfter (((litCI "acknowledg".data (s.data.dropWhile pySpace)).map
    (optCharCI 'e')).bind (litCI "ment".data) |>.map (optCharCI 's'))

/-- Embeds the generic numbered-heading check `^\s*\d+\.?\s+[A-Z]`
(document_parser.py lines 210 and 221; case-sensitive, prefix match).
Greedy scanning agrees with the regex: shrinking `\d+` or dropping `\.?`
cannot rescue a failed `\s+[A-Z]`. -/
def matchNumberedHeading (s : String) : Bool :=
  let l := s.data.dropWhile pySpace
  let ds := l.takeWhile pyDigit
  if ds.isEmpty then false
  else
    let r1 := l.dropWhile pyDigit
    let r2 := match r1 with
      | '.' :: t => t
      | t => t
    match r2 with
    | c :: _ =>
      pySpace c && (match r2.dropWhile pySpace with
        | d :: _ => upperAZ d
        | [] => false)
    | [] => false

/-- Embeds `DocumentParser._get_section_type` (document_parser.py lines
214-224): the patterns are tried in dictionary order, then the generic
numbered-heading fallback. -/
def getSectionType (s : String) : Option String :=
  if matchIntroduction s then some "introduction"
  else if matchRelatedWork s then some "related_work"
  else if matchMethodology s then some "methodology"
  else if matchResults s then some "results"
  else if matchDiscussion s then some "discussion"
  else if matchConclusion s then some "conclusion"
  else if matchReferencesPat s then some "references"
  else if matchAcknowledgments s then some "acknowledgments"
  else if matchNumberedHeading s then some "numbered_section"
  else none

/-- Embeds `DocumentParser._is_section_heading` (document_parser.py lines
204-212): any of the eight table patterns, or the numbered-heading
check. -/
def isSectionHeading (s : String) : Bool :=
  matchIntroduction s || matchRelatedWork s || matchMethodology s ||
  matchResults s || matchDiscussion s || matchConclusion s ||
  matchReferencesPat s || matchAcknowledgments s || matchNumberedHeading s

/-- Prefix test for the abstract heading, embedding
`re.match(r'(?i)^\s*abstract\.?\s*', para)` (document_parser.py line
110): the match succeeds whenever the paragraph starts, after whitespace,
with the word "abstract" in any case. -/
def matchAbstractLead (s : String) : Bool :=
  (litCI "abstract".data (s.data.dropWhile pySpace)).isSome

/-- Embeds `re.sub(r'(?i)^\s*abstract\.?\s*', '', para)`
(document_parser.py line 113): since the pattern is anchored at the start,
`re.sub` removes at most the leading match.  Returns the input unchanged
when the pattern does not match. -/
def removeAbstractLead (s : String) : String :=
  match litCI "abstract".data (s.data.dropWhile pySpace) with
  | some r =>
    String.mk ((match r with
      | '.' :: t => t
      | t => t).dropWhile pySpace)
  | none => s

/-- Prefix test embedding `re.match(r'(?i)^\s*keywords?\.?\s*:', para)`
(document_parser.py line 118): the stop condition of abstract
accumulation requires the colon. -/
def matchKeywordsStop (s : String) : Bool :=
  match (litCI "keyword".data (s.data.dropWhile pySpace)).map (optCharCI 's') with
  | some r =>
    (match (match r with
      | '.' :: t => t
      | t => t).dropWhile pySpace with
      | ':' :: _ => true
      | _ => false)
  | none => false

/-- Result record of `DocumentParser.extract_abstract` (document_parser.py
lines 126-130): the `{'text', 'word_count', 'is_valid'}` dictionary. -/
structure AbstractData where
  text : String
  word_count : Nat
  is_valid : Bool
deriving DecidableEq, Repr

/-- Loop of `DocumentParser.extract_abstract` (document_parser.py lines
108-121), carried out over the accumulated text as a character list:
a paragraph matching the abstract pattern (re)starts accumulation with
its remainder after the stripped lead; afterwards each paragraph is
appended as `" " + para` until a keywords line or a section heading is
met, which ends the whole scan (`break`). -/
def extractAbstractAux : List String → List Char → Bool → List Char
  | [], text, _ => text
  | p :: rest, text, started =>
    if matchAbstractLead p then
      extractAbstractAux rest (removeAbstractLead p).data true
    else if started then
      if matchKeywordsStop p || isSectionHeading p then text
      else extractAbstractAux rest (text ++ ' ' :: p.data) started
    else
      extractAbstractAux rest text false

/-- Embeds `DocumentParser.extract_abstract` (document_parser.py lines
103-130).  `word_count` is `len(abstract_text.split())` when the
accumulated text is non-empty and `0` otherwise; the returned text is the
stripped accumulation; `is_valid` tests `150 <= word_count <= 250`. -/
def extract_abstract (paras : List String) : AbstractData :=
  let t := extractAbstractAux paras [] false
  let wc := if t.isEmpty then 0 else countTokens t
  { text := String.mk (pyStrip t)
    word_count := wc
    is_valid := decide (150 ≤ wc ∧ wc ≤ 250) }

/-- Delimiter class of keyword splitting, embedding the regex class
`[,;·•]` of `re.split(r'[,;·•]', keyword_text)` (document_parser.py line
142). -/
def kwDelim (c : Char) : Bool :=
  c = ',' || c = ';' || c = '·' || c = '•'

/-- Model of `re.split` on a single-character class: cut the character
list at every delimiter occurrence (the delimiters themselves are
dropped, empty pieces are kept). -/
def pySplitOn (d : Char → Bool) : List Char → List (List Char)
  | [] => [[]]
  | c :: cs =>
    if d c then [] :: pySplitOn d cs
    else
      match pySplitOn d cs with
      | r :: rs => (c :: r) :: rs
      | [] => [[c]]

/-- Embeds the keyword-splitting step of `DocumentParser.extract_keywords`
(document_parser.py line 142):
`[k.strip() for k in re.split(r'[,;·•]', keyword_text) if k.strip()]`. -/
def splitKeywordText (l : List Char) : List (List Char) :=
  ((pySplitOn kwDelim l).map pyStrip).filter (fun k => !k.isEmpty)

/-- Embeds the renderer-side keyword joining `' · '.join(keywords)`
(style_applier.py line 241) on character lists. -/
def joinKeywords : List (List Char) → List Char
  | [] => []
  | [t] => t
  | t :: ts => t ++ ' ' :: '·' :: ' ' :: joinKeywords ts

/-- One detected section record of `DocumentParser.detect_sections`
(document_parser.py lines 159-164). -/
structure DocSection where
  type : String
  title : String
  content : String
  start_index : Nat
deriving DecidableEq, Repr

/-- Variant of a detected section carrying the content as the list of its
paragraphs, before the `'\n'.join(current_content)` of the source. -/
structure PreSection where
  ptype : String
  title : String
  contentParas : List String
  start_index : Nat
deriving DecidableEq, Repr

/-- Join step applied when a section is flushed: content paragraphs are
joined by newline (document_parser.py lines 162 and 181). -/
def toDocSection (q : PreSection) : DocSection :=
  ⟨q.ptype, q.title, String.intercalate "\n" q.contentParas, q.start_index⟩

/-- Loop of `DocumentParser.detect_sections` (document_parser.py lines
153-183): `cur` is the open section `(type, title, start_index)`, `acc`
its accumulated content paragraphs, `i` the index of the next paragraph.
A heading flushes the open section and opens a new one; a non-heading
paragraph is collected when a section is open and dropped otherwise; the
final open section is flushed at the end. -/
def detectAux : List String → Nat → Option (String × String × Nat) →
    List String → List DocSection
  | [], _, none, _ => []
  | [], _, some (t, ti, si), acc => [⟨t, ti, String.intercalate "\n" acc, si⟩]
  | p :: rest, i, cur, acc =>
    match getSectionType p with
    | some t =>
      (match cur with
        | some (t0, ti0, si0) =>
          ⟨t0, ti0, String.intercalate "\n" acc, si0⟩ ::
            detectAux rest (i + 1) (some (t, p, i)) []
        | none => detectAux rest (i + 1) (some (t, p, i)) [])
    | none =>
      (match cur with
        | some c => detectAux rest (i + 1) (some c) (acc ++ [p])
        | none => detectAux rest (i + 1) none acc)

/-- Embeds `DocumentParser.detect_sections` (document_parser.py lines
147-185). -/
def detect_sections (paras : List String) : List DocSection :=
  detectAux paras 0 none []

/-- Parallel version of `detectAux` producing `PreSection`s (content kept
as a paragraph list); `detectAux_eq_pre` below relates the two. -/
def detectAuxP : List String → Nat → Option (String × String × Nat) →
    List String → List PreSection
  | [], _, none, _ => []
  | [], _, some (t, ti, si), acc => [⟨t, ti, acc, si⟩]
  | p :: rest, i, cur, acc =>
    match getSectionType p with
    | some t =>
      (match cur with
        | some (t0, ti0, si0) =>
          ⟨t0, ti0, acc, si0⟩ :: detectAuxP rest (i + 1) (some (t, p, i)) []
        | none => detectAuxP rest (i + 1) (some (t, p, i)) [])
    | none =>
      (match cur with
        | some c => detectAuxP rest (i + 1) (some c) (acc ++ [p])
        | none => detectAuxP rest (i + 1) none acc)

/-- Embeds `DocumentParser.extract_references` (document_parser.py lines
187-202).  Once a paragraph matches the references heading pattern the
flag is set (the heading itself is skipped, also when repeated); from
then on a paragraph is collected exactly when it is non-empty (the
condition `re.match(r'^\s*\[?\d+\]?[\.\)]\s*', para) or para` of line 199
is equivalent to `para != ''`, because the regex requires a digit and so
never matches the empty string). -/
def extractRefsAux : Bool → List String → List String
  | _, [] => []
  | inRefs, p :: rest =>
    if matchReferencesPat p then extractRefsAux true rest
    else if inRefs then
      if p = "" then extractRefsAux true rest
      else p :: extractRefsAux true rest
    else extractRefsAux false rest

/-- Embeds `DocumentParser.extract_references`. -/
def extract_references (paras : List String) : List String :=
  extractRefsAux false paras

/-- Embeds `re.sub(r'^\s*\d+\.?\s*', '', text)` of
`StyleApplier.add_heading` (style_applier.py line 269): strip a leading
run of digits with an optional dot and surrounding whitespace; if there
is no digit the text is returned unchanged (no match). -/
def stripHeadingNumber (s : String) : String :=
  let l := s.data.dropWhile pySpace
  if (l.takeWhile pyDigit).isEmpty then s
  else
    String.mk ((match l.dropWhile pyDigit with
      | '.' :: t => t
      | t => t).dropWhile pySpace)

/-- Embeds `re.sub(r'^\s*\[?\d+\]?[\.\)]\s*', '', ref)` of
`StyleApplier.add_references` (style_applier.py line 348) on a character
list: optional `[`, at least one digit, optional `]`, then a REQUIRED `.`
or `)`, then whitespace.  If any step fails the input is returned
unchanged.  Greedy scanning agrees with the regex: dropping a greedily
consumed `[` or `]` can never rescue a failed later step, because `\d+`
cannot match `[` and `[\.\)]` cannot match `]`. -/
def dropOpt (c : Char) (l : List Char) : List Char :=
  if l.head? = some c then l.tail else l

/-- Regex scanner of `re.sub(r'^\s*\[?\d+\]?[\.\)]\s*', '', ref)`
(style_applier.py line 348), built from `dropOpt` for the optional
bracket characters. -/
def stripRefNumberChars (l : List Char) : List Char :=
  if (((dropOpt '[' (l.dropWhile pySpace)).takeWhile pyDigit).isEmpty) then l
  else if (dropOpt ']' ((dropOpt '[' (l.dropWhile pySpace)).dropWhile pyDigit)).head?
        = some '.'
      ∨ (dropOpt ']' ((dropOpt '[' (l.dropWhile pySpace)).dropWhile pyDigit)).head?
        = some ')' then
    (dropOpt ']' ((dropOpt '[' (l.dropWhile pySpace)).dropWhile pyDigit)).tail.dropWhile
      pySpace
  else l

/-- `stripRefNumberChars` on `String`. -/
def stripRefNumber (s : String) : String :=
  String.mk (stripRefNumberChars s.data)

/-- Embeds `StyleApplier._get_heading_level` (style_applier.py lines
368-377).  The membership list of line 370 contains seven section types;
`acknowledgments` is NOT among them. -/
def getHeadingLevel (section_type : String) : Nat :=
  if section_type ∈ ["introduction", "related_work", "methodology",
      "results", "discussion", "conclusion", "references"] then 1
  else if section_type = "numbered_section" then 1
  else 2

/-- Author record as produced by `DocumentParser.extract_authors`
(document_parser.py lines 94-98); `affiliation` is always unset there and
unused by the renderer, so it is omitted. -/
structure Author where
  name : String
  email : Option String
deriving DecidableEq, Repr

/-- The parsed-content dictionary consumed by
`StyleApplier.apply_springer_style`, as produced by
`DocumentParser.parse_sections` (document_parser.py lines 54-62,
`raw_paragraphs` omitted as the renderer never reads it). -/
structure ParsedContent where
  title : String
  authors : List Author
  abstract : AbstractData
  keywords : List String
  sections : List DocSection
  references : List String
deriving DecidableEq, Repr

/-- One paragraph-level element of the output document, recording the
content-relevant data of each paragraph the style applier appends. -/
inductive DocElem
  | titleP (text : String)
  | authorsP (names : List String)
  | abstractP (text : String)
  | keywordsP (kws : List String)
  | headingP (text : String) (level : Nat)
  | bodyP (text : String)
  | imageP (path : String)
  | captionP (text : String)
  | refP (label : String) (text : String)
deriving DecidableEq, Repr

/-- The mutable state of a `StyleApplier` (style_applier.py lines 56-61)
together with the paragraph list of its output document. -/
structure ApplierState where
  figure_counter : Nat
  table_counter : Nat
  changes_log : List String
  doc : List DocElem
deriving DecidableEq, Repr

/-- A fresh `StyleApplier()` (style_applier.py lines 56-61). -/
def initApplier : ApplierState :=
  ⟨0, 0, [], []⟩

/-- Embeds `StyleApplier.create_new_document` (style_applier.py lines
63-68): a fresh document replaces the old one and `_setup_page_layout`
appends the margins entry to the (not reset) changes log;
`_create_styles` adds styles but no paragraphs and no log entry. -/
def create_new_document (s : ApplierState) : ApplierState :=
  { s with doc := [],
           changes_log := s.changes_log ++ ["Page margins set to 2.5cm all sides"] }

/-- Embeds `StyleApplier.add_title` (style_applier.py lines 162-172). -/
def add_title (s : ApplierState) (title : String) : ApplierState :=
  { s with doc := s.doc ++ [.titleP title],
           changes_log := s.changes_log ++ ["Title formatted (14pt, Bold, Center)"] }

/-- Embeds `StyleApplier.add_authors` (style_applier.py lines 174-196):
an empty list returns immediately, otherwise one names paragraph and one
log entry are appended. -/
def add_authors (s : ApplierState) (authors : List Author) : ApplierState :=
  if authors.isEmpty then s
  else
    { s with doc := s.doc ++ [.authorsP (authors.map (·.name))],
             changes_log := s.changes_log ++
               ["Authors formatted with superscript affiliations"] }

/-- Embeds `StyleApplier.add_abstract` (style_applier.py lines 198-225)
for the dictionary input produced by the parser: the text is taken from
the record and an empty text returns without appending anything. -/
def add_abstract (s : ApplierState) (a : AbstractData) : ApplierState :=
  if a.text = "" then s
  else
    { s with doc := s.doc ++ [.abstractP a.text],
             changes_log := s.changes_log ++
               ["Abstract prefixed with \"Abstract.\" (10pt, Italic)"] }

/-- Embeds `StyleApplier.add_keywords` (style_applier.py lines 227-248). -/
def add_keywords (s : ApplierState) (kws : List String) : ApplierState :=
  if kws.isEmpty then s
  else
    { s with doc := s.doc ++ [.keywordsP kws],
             changes_log := s.changes_log ++
               ["Keywords formatted (" ++ toString kws.length ++ " keywords)"] }

/-- Embeds `StyleApplier.add_heading` (style_applier.py lines 266-286):
the heading text is cleaned of a leading number and appended at the given
level.  NOTE: `add_heading` appends no changes-log entry. -/
def add_heading (s : ApplierState) (text : String) (level : Nat) : ApplierState :=
  { s with doc := s.doc ++ [.headingP (stripHeadingNumber text) level] }

/-- Embeds `StyleApplier.add_body_paragraph` (style_applier.py lines
288-296); it appends no changes-log entry. -/
def add_body_paragraph (s : ApplierState) (text : String) : ApplierState :=
  { s with doc := s.doc ++ [.bodyP text] }

/-- Model of Python's `content.split('\n')`: cut at every newline,
keeping empty pieces. -/
def pySplitLines (content : String) : List String :=
  (pySplitOn (fun c => c = '\n') content.data).map String.mk

/-- Embeds the content loop of `StyleApplier.add_section`
(style_applier.py lines 261-264): each newline-separated piece of the
content is stripped and, when non-empty, appended as a body paragraph. -/
def addSectionBody (s : ApplierState) (content : String) : ApplierState :=
  (pySplitLines content).foldl
    (fun st pt => if pyStripS pt = "" then st else add_body_paragraph st (pyStripS pt)) s

/-- Embeds `StyleApplier.add_section` (style_applier.py lines 250-264). -/
def add_section (s : ApplierState) (sec : DocSection) : ApplierState :=
  addSectionBody (add_heading s sec.title (getHeadingLevel sec.type)) sec.content

/-- Caption text selection of `StyleApplier.add_figure` (style_applier.py
line 310): a `None` or empty caption falls back to the default. -/
def captionTextOf (caption : Option String) (n : Nat) : String :=
  match caption with
  | some c => if c = "" then "Description of figure " ++ toString n else c
  | none => "Description of figure " ++ toString n

/-- Embeds `StyleApplier.add_figure` (style_applier.py lines 298-329).
`fs` models `os.path.exists`: the picture paragraph is only added when
the path exists, but the counter increment, the caption paragraph and the
log entry happen unconditionally. -/
def add_figure (fs : String → Bool) (s : ApplierState) (path : String)
    (caption : Option String) : ApplierState :=
  let n := s.figure_counter + 1
  { s with
    figure_counter := n,
    doc := s.doc ++ (if fs path then [.imageP path] else []) ++
      [.captionP ("Fig. " ++ toString n ++ ". " ++ captionTextOf caption n)],
    changes_log := s.changes_log ++
      ["Figure " ++ toString n ++ " inserted with caption"] }

/-- Reference loop of `StyleApplier.add_references` (style_applier.py
lines 339-355): the i-th reference (1-based `i`) is rendered as a number
run `"[i] "` followed by the cleaned reference text. -/
def addRefsAux (s : ApplierState) (i : Nat) : List String → ApplierState
  | [] => s
  | r :: rs =>
    addRefsAux
      { s with doc := s.doc ++
          [.refP ("[" ++ toString i ++ "] ") (stripRefNumber r)] }
      (i + 1) rs

/-- Embeds `StyleApplier.add_references` (style_applier.py lines
331-357). -/
def add_references (s : ApplierState) (refs : List String) : ApplierState :=
  if refs.isEmpty then s
  else
    let s1 := add_heading s "References" 1
    let s2 := addRefsAux s1 1 refs
    { s2 with changes_log := s2.changes_log ++
        ["References formatted: " ++ toString refs.length ++ " items"] }

/-- Embeds `StyleApplier.apply_springer_style` (style_applier.py lines
129-160).  The abstract guard `if parsed_content.get('abstract')` is
always true for parser output (the abstract value is a non-empty
dictionary), so `add_abstract` is always entered and applies its own
empty-text guard; the remaining guards test non-emptiness of the
corresponding field, duplicating the internal guards of `add_authors`,
`add_keywords` and `add_references`. -/
def apply_springer_style (s0 : ApplierState) (c : ParsedContent) : ApplierState :=
  let s1 := { create_new_document s0 with figure_counter := 0, table_counter := 0 }
  let s2 := if c.title ≠ "" then add_title s1 c.title else s1
  let s3 := if ¬c.authors.isEmpty then add_authors s2 c.authors else s2
  let s4 := add_abstract s3 c.abstract
  let s5 := if ¬c.keywords.isEmpty then add_keywords s4 c.keywords else s4
  let s6 := if ¬c.sections.isEmpty then c.sections.foldl add_section s5 else s5
  if ¬c.references.isEmpty then add_references s6 c.references else s6

/-- One record of `ImageProcessor.get_images_data` (image_processor.py
lines 150-156) as consumed by `insert_images_at_positions`; the width
field carries no content-relevant data and is omitted. -/
structure ImageData where
  path : String
  caption : String
deriving DecidableEq, Repr

/-- Embeds `StyleApplier.insert_images_at_positions` (style_applier.py
lines 359-366): `add_figure` is called for each record in order with its
path and caption. -/
def insert_images_at_positions (fs : String → Bool) (s : ApplierState)
    (imgs : List ImageData) : ApplierState :=
  imgs.foldl (fun st img => add_figure fs st img.path (some img.caption)) s

/-- Embeds the render part of `app.process_document` (app.py lines
185-191): a fresh `StyleApplier`, `apply_springer_style` on the parsed
content, then — only if any image data exists — the images are appended
by `insert_images_at_positions`. -/
def processDocumentRender (fs : String → Bool) (c : ParsedContent)
    (images_data : List ImageData) : ApplierState :=
  let st := apply_springer_style initApplier c
  if ¬images_data.isEmpty then insert_images_at_positions fs st images_data else st

/-- Per-image input of the image processor, abstracting the external
effects of `ImageProcessor.process_image` (image_processor.py lines
29-92): `found` models `os.path.exists(image_path)` (line 31) and
`decodeOk` models whether `PIL.Image.open` and the subsequent processing
of lines 35-81 raise (the `except` of line 91). -/
structure ImgFile where
  path : String
  found : Bool
  decodeOk : Bool
deriving DecidableEq, Repr

/-- Per-image result of `ImageProcessor.process_image`: the success flag
and, for successes, the assigned figure number (image_processor.py lines
83-85). -/
structure ImgResult where
  success : Bool
  figure_number : Option Nat
  original_path : String
deriving DecidableEq, Repr

/-- Embeds `ImageProcessor.process_image` (image_processor.py lines
29-92) at the level of success bookkeeping: a missing file or a raising
decode returns a failure result WITHOUT touching `processed_images`; a
success is assigned `figure_number = len(processed_images) + 1` and
appended to `processed_images`. -/
def process_image (st : List ImgResult) (f : ImgFile) : ImgResult × List ImgResult :=
  if ¬f.found then (⟨false, none, f.path⟩, st)
  else if ¬f.decodeOk then (⟨false, none, f.path⟩, st)
  else
    let r : ImgResult := ⟨true, some (st.length + 1), f.path⟩
    (r, st ++ [r])

/-- Embeds `ImageProcessor.process_image_list` (image_processor.py lines
118-126): every image is processed in input order and every per-image
result (success or failure) is collected. -/
def process_image_list (st : List ImgResult) :
    List ImgFile → List ImgResult × List ImgResult
  | [] => ([], st)
  | f :: fsRest =>
    let (r, st1) := process_image st f
    let (rs, st2) := process_image_list st1 fsRest
    (r :: rs, st2)

/-- Number of images that process successfully (exist and decode). -/
def countSucc (fsl : List ImgFile) : Nat :=
  (fsl.filter (fun f => f.found && f.decodeOk)).length

/-- The expected figure numbers of `n` consecutive successes starting at
number `s`. -/
def figNumbersFrom : Nat → Nat → List (Option Nat)
  | _, 0 => []
  | s, n + 1 => some s :: figNumbersFrom (s + 1) n

/-- Negation of being a detected section heading, as a Bool predicate on
paragraphs (used to describe `detect_sections` via
`takeWhile`/`dropWhile`). -/
def notHead (p : String) : Bool :=
  !(getSectionType p).isSome

/-- Indices (relative to offset `i`) of the paragraphs recognized as
section headings. -/
def headIdxs : List String → Nat → List Nat
  | [], _ => []
  | p :: rest, i =>
    if (getSectionType p).isSome then i :: headIdxs rest (i + 1)
    else headIdxs rest (i + 1)

/-- Right boundary of the paragraph range of section `k`: the start index
of section `k+1` when it exists, the paragraph count otherwise. -/
def nextBound (P : List String) (S : List DocSection) (k : Nat) : Nat :=
  match S.get? (k + 1) with
  | some s => s.start_index
  | none => P.length

/-- The heading paragraph of a section followed by its content
paragraphs. -/
def sectionGroup (q : PreSection) : List String :=
  q.title :: q.contentParas

/-- Modelled from the spec: the body paragraphs emitted for a section
content string — one per non-blank newline-separated piece, stripped. -/
def bodyBlock (content : String) : List DocElem :=
  (pySplitLines content).filterMap
    (fun pt => if pyStripS pt = "" then none else some (.bodyP (pyStripS pt)))

/-- Modelled from the spec: the document block emitted for one section by
the renderer (heading with cleaned title at the computed level, then one
body paragraph per non-blank newline-separated content piece). -/
def renderSectionBlock (sec : DocSection) : List DocElem :=
  .headingP (stripHeadingNumber sec.title) (getHeadingLevel sec.type) ::
    bodyBlock sec.content

/-- Modelled from the spec: the reference entries block, numbering the
references sequentially from `i`. -/
def refsBlock : Nat → List String → List DocElem
  | _, [] => []
  | i, r :: rs =>
    .refP ("[" ++ toString i ++ "] ") (stripRefNumber r) :: refsBlock (i + 1) rs

/-- Modelled from the spec: the figures block appended by image
insertion, with figure numbers continuing from `n` (the current figure
counter); a missing file contributes no picture element but keeps its
caption. -/
def imagesBlock (fs : String → Bool) : Nat → List ImageData → List DocElem
  | _, [] => []
  | n, img :: rest =>
    (if fs img.path then [.imageP img.path] else []) ++
      .captionP ("Fig. " ++ toString (n + 1) ++ ". " ++
        captionTextOf (some img.caption) (n + 1)) :: imagesBlock fs (n + 1) rest

/-- Modelled from the spec: the changes-log entries of image insertion. -/
def imagesLog : Nat → List ImageData → List String
  | _, [] => []
  | n, _ :: rest =>
    ("Figure " ++ toString (n + 1) ++ " inserted with caption") :: imagesLog (n + 1) rest

/-- Modelled from the spec: the full paragraph sequence a render pass
emits, in order — title, authors, abstract, keywords, sections, then
references; every block is empty when its field is empty. -/
def renderedDocSpec (c : ParsedContent) : List DocElem :=
  (if c.title ≠ "" then [.titleP c.title] else []) ++
  (if ¬c.authors.isEmpty then [.authorsP (c.authors.map (·.name))] else []) ++
  (if c.abstract.text = "" then [] else [.abstractP c.abstract.text]) ++
  (if ¬c.keywords.isEmpty then [.keywordsP c.keywords] else []) ++
  (c.sections.map renderSectionBlock).flatten ++
  (if ¬c.references.isEmpty then
    .headingP "References" 1 :: refsBlock 1 c.references
  else [])

/-- Modelled from the spec: the changes-log entries of one
`apply_springer_style` call — one margins entry, then exactly one entry
per NON-EMPTY top-level field (title, authors, abstract, keywords,
references); sections contribute no entry. -/
def changesLogSpec (c : ParsedContent) : List String :=
  "Page margins set to 2.5cm all sides" ::
  ((if c.title ≠ "" then ["Title formatted (14pt, Bold, Center)"] else []) ++
   (if ¬c.authors.isEmpty then ["Authors formatted with superscript affiliations"] else []) ++
   (if c.abstract.text = "" then []
    else ["Abstract prefixed with \"Abstract.\" (10pt, Italic)"]) ++
   (if ¬c.keywords.isEmpty then
     ["Keywords formatted (" ++ toString c.keywords.length ++ " keywords)"]
   else []) ++
   (if ¬c.references.isEmpty then
     ["References formatted: " ++ toString c.references.length ++ " items"]
   else []))

lemma addSectionBody_eq (content : String) (s : ApplierState) :
    addSectionBody s content = { s with doc := s.doc ++ bodyBlock content } := by
  unfold addSectionBody bodyBlock
  generalize pySplitLines content = l
  induction l generalizing s with
  | nil => simp
  | cons p rest ih =>
    simp only [List.foldl_cons]
    by_cases h : pyStripS p = ""
    · rw [if_pos h, ih]
      simp [h]
    · rw [if_neg h, ih]
      simp [h, add_body_paragraph, List.append_assoc]

lemma add_section_eq (sec : DocSection) (s : ApplierState) :
    add_section s sec = { s with doc := s.doc ++ renderSectionBlock sec } := by
  unfold add_section renderSectionBlock
  rw [addSectionBody_eq]
  simp [add_heading, List.append_assoc]

lemma foldl_add_section_eq (secs : List DocSection) (s : ApplierState) :
    secs.foldl add_section s =
      { s with doc := s.doc ++ (secs.map renderSectionBlock).flatten } := by
  induction secs generalizing s with
  | nil => simp
  | cons sec rest ih => simp [add_section_eq, ih, List.append_assoc]

lemma sections_guard_eq (secs : List DocSection) (s : ApplierState) :
    (if ¬secs.isEmpty then secs.foldl add_section s else s) =
      { s with doc := s.doc ++ (secs.map renderSectionBlock).flatten } := by
  by_cases h : secs.isEmpty
  · rw [List.isEmpty_iff.mp h]
    simp
  · simp [h, foldl_add_section_eq]

lemma addRefsAux_eq (rs : List String) (s : ApplierState) (i : Nat) :
    addRefsAux s i rs = { s with doc := s.doc ++ refsBlock i rs } := by
  induction rs generalizing s i with
  | nil => simp [addRefsAux, refsBlock]
  | cons r rest ih => simp [addRefsAux, refsBlock, ih, List.append_assoc]

lemma stripHeadingNumber_references : stripHeadingNumber "References" = "References" := by
  decide

lemma add_references_eq (refs : List String) (s : ApplierState) (h : ¬refs.isEmpty) :
    add_references s refs =
      { s with doc := s.doc ++ .headingP "References" 1 :: refsBlock 1 refs,
               changes_log := s.changes_log ++
                 ["References formatted: " ++ toString refs.length ++ " items"] } := by
  simp [add_references, h, addRefsAux_eq, add_heading, stripHeadingNumber_references,
    List.append_assoc]

lemma refs_guard_eq (refs : List String) (s : ApplierState) :
    (if ¬refs.isEmpty then add_references s refs else s) =
      { s with
        doc := s.doc ++
          (if ¬refs.isEmpty then .headingP "References" 1 :: refsBlock 1 refs else []),
        changes_log := s.changes_log ++
          (if ¬refs.isEmpty then
            ["References formatted: " ++ toString refs.length ++ " items"]
          else []) } := by
  by_cases h : refs.isEmpty <;> simp [h, add_references_eq]

lemma title_guard_eq (t : String) (s : ApplierState) :
    (if t ≠ "" then add_title s t else s) =
      { s with
        doc := s.doc ++ (if t ≠ "" then [.titleP t] else []),
        changes_log := s.changes_log ++
          (if t ≠ "" then ["Title formatted (14pt, Bold, Center)"] else []) } := by
  by_cases h : t = "" <;> simp [h, add_title]

lemma authors_guard_eq (authors : List Author) (s : ApplierState) :
    (if ¬authors.isEmpty then add_authors s authors else s) =
      { s with
        doc := s.doc ++
          (if ¬authors.isEmpty then [.authorsP (authors.map (·.name))] else []),
        changes_log := s.changes_log ++
          (if ¬authors.isEmpty then
            ["Authors formatted with superscript affiliations"]
          else []) } := by
  by_cases h : authors.isEmpty <;> simp [h, add_authors]

lemma add_abstract_eq (a : AbstractData) (s : ApplierState) :
    add_abstract s a =
      { s with
        doc := s.doc ++ (if a.text = "" then [] else [.abstractP a.text]),
        changes_log := s.changes_log ++
          (if a.text = "" then []
           else ["Abstract prefixed with \"Abstract.\" (10pt, Italic)"]) } := by
  by_cases h : a.text = "" <;> simp [h, add_abstract]

lemma keywords_guard_eq (kws : List String) (s : ApplierState) :
    (if ¬kws.isEmpty then add_keywords s kws else s) =
      { s with
        doc := s.doc ++ (if ¬kws.isEmpty then [.keywordsP kws] else []),
        changes_log := s.changes_log ++
          (if ¬kws.isEmpty then
            ["Keywords formatted (" ++ toString kws.length ++ " keywords)"]
          else []) } := by
  by_cases h : kws.isEmpty <;> simp [h, add_keywords]

lemma apply_springer_style_eq (s0 : ApplierState) (c : ParsedContent) :
    apply_springer_style s0 c =
      ⟨0, 0, s0.changes_log ++ changesLogSpec c, renderedDocSpec c⟩ := by
  simp only [apply_springer_style, title_guard_eq, authors_guard_eq,
    add_abstract_eq, keywords_guard_eq, sections_guard_eq, refs_guard_eq,
    create_new_document]
  simp [changesLogSpec, renderedDocSpec, List.append_assoc]

lemma insert_images_eq (fs : String → Bool) (imgs : List ImageData)
    (s : ApplierState) :
    insert_images_at_positions fs s imgs =
      { s with figure_counter := s.figure_counter + imgs.length,
               doc := s.doc ++ imagesBlock fs s.figure_counter imgs,
               changes_log := s.changes_log ++ imagesLog s.figure_counter imgs } := by
  unfold insert_images_at_positions
  induction imgs generalizing s with
  | nil => simp [imagesBlock, imagesLog]
  | cons img rest ih =>
    rw [List.foldl_cons, ih]
    simp [add_figure, imagesBlock, imagesLog, List.append_assoc,
      Nat.add_comm, Nat.add_assoc, Nat.add_left_comm]

lemma processDocumentRender_eq (fs : String → Bool) (c : ParsedContent)
    (imgs : List ImageData) :
    processDocumentRender fs c imgs =
      ⟨imgs.length, 0, changesLogSpec c ++ imagesLog 0 imgs,
        renderedDocSpec c ++ imagesBlock fs 0 imgs⟩ := by
  unfold processDocumentRender
  by_cases h : ¬imgs.isEmpty
  · rw [if_pos h, apply_springer_style_eq, insert_images_eq]
    simp [initApplier]
  · rw [if_neg h, apply_springer_style_eq]
    rw [not_not] at h
    rw [List.isEmpty_iff.mp h]
    simp [imagesBlock, imagesLog, initApplier]

lemma takeWhile_append_stop {α} (p : α → Bool) (a : List α) (b : α) (l : List α)
    (ha : ∀ c ∈ a, p c = true) (hb : p b = false) :
    (a ++ b :: l).takeWhile p = a := by
  induction a with
  | nil => simp [List.takeWhile_cons, hb]
  | cons x xs ih =>
    have hx : p x = true := ha x (by simp)
    have ih2 := ih (fun c hc => ha c (by simp [hc]))
    simp [List.takeWhile_cons, hx, ih2]

lemma dropWhile_append_stop {α} (p : α → Bool) (a : List α) (b : α) (l : List α)
    (ha : ∀ c ∈ a, p c = true) (hb : p b = false) :
    (a ++ b :: l).dropWhile p = b :: l := by
  induction a with
  | nil => simp [List.dropWhile_cons, hb]
  | cons x xs ih =>
    have hx : p x = true := ha x (by simp)
    have ih2 := ih (fun c hc => ha c (by simp [hc]))
    simp [List.dropWhile_cons, hx, ih2]

lemma pyDigit_not_space {c : Char} (h : pyDigit c = true) : pySpace c = false := by
  by_contra hns
  rw [Bool.not_eq_false] at hns
  have hc : c = ' ' ∨ c = '\t' ∨ c = '\n' ∨ c = '\r' ∨ c = '\x0b' ∨ c = '\x0c' := by
    simpa [pySpace, or_assoc] using hns
  rcases hc with rfl | rfl | rfl | rfl | rfl | rfl <;> exact absurd h (by decide)

lemma pyDigit_ne_bracket {c : Char} (h : pyDigit c = true) : c ≠ '[' := by
  rintro rfl
  exact absurd h (by decide)

lemma pyDigit_dot : pyDigit '.' = false := by decide

lemma pyDigit_paren : pyDigit ')' = false := by decide

lemma pyDigit_rbracket : pyDigit ']' = false := by decide

lemma refsBlock_get? (rs : List String) :
    ∀ (i k : Nat) (r : String), rs.get? k = some r →
      (refsBlock i rs).get? k =
        some (.refP ("[" ++ toString (i + k) ++ "] ") (stripRefNumber r)) := by
  induction rs with
  | nil => intro i k r h; simp at h
  | cons x xs ih =>
    intro i k r h
    cases k with
    | zero =>
      simp at h
      simp [refsBlock, h]
    | succ k =>
      simp only [List.get?_cons_succ] at h
      have := ih (i + 1) k r h
      simpa [refsBlock, Nat.add_assoc, Nat.add_comm 1 k] using this

lemma isEmpty_false_of_ne {α} {l : List α} (h : l ≠ []) : l.isEmpty = false := by
  cases l
  · exact absurd rfl h
  · rfl

lemma stripRef_success (l l2 l3 : List Char)
    (hA : dropOpt '[' (l.dropWhile pySpace) = l2)
    (hB : (l2.takeWhile pyDigit).isEmpty = false)
    (hC : dropOpt ']' (l2.dropWhile pyDigit) = l3)
    (hD : l3.head? = some '.' ∨ l3.head? = some ')') :
    stripRefNumberChars l = l3.tail.dropWhile pySpace := by
  unfold stripRefNumberChars
  rw [hA, hB, hC]
  rw [if_neg (by simp), if_pos hD]

lemma stripRef_nosep (l l2 l3 : List Char)
    (hA : dropOpt '[' (l.dropWhile pySpace) = l2)
    (hB : (l2.takeWhile pyDigit).isEmpty = false)
    (hC : dropOpt ']' (l2.dropWhile pyDigit) = l3)
    (hD : ¬(l3.head? = some '.' ∨ l3.head? = some ')')) :
    stripRefNumberChars l = l := by
  unfold stripRefNumberChars
  rw [hA, hB, hC]
  rw [if_neg (by simp), if_neg hD]

lemma stripRef_digits_dot (ds rest : List Char) (hne : ds ≠ [])
    (hd : ∀ c ∈ ds, pyDigit c = true) :
    stripRefNumberChars (ds ++ '.' :: ' ' :: rest) = rest.dropWhile pySpace := by
  rcases ds with _ | ⟨d, ds'⟩
  · exact absurd rfl hne
  · have hd0 : pyDigit d = true := hd d (by simp)
    have h1 : ((d :: ds') ++ '.' :: ' ' :: rest).dropWhile pySpace
        = (d :: ds') ++ '.' :: ' ' :: rest := by
      simp [List.dropWhile_cons, pyDigit_not_space hd0]
    have h2 : dropOpt '[' ((d :: ds') ++ '.' :: ' ' :: rest)
        = (d :: ds') ++ '.' :: ' ' :: rest := by
      simp [dropOpt, pyDigit_ne_bracket hd0]
    have h3 := takeWhile_append_stop pyDigit (d :: ds') '.' (' ' :: rest) hd pyDigit_dot
    have h4 := dropWhile_append_stop pyDigit (d :: ds') '.' (' ' :: rest) hd pyDigit_dot
    have h5 : dropOpt ']' ('.' :: ' ' :: rest) = '.' :: ' ' :: rest := by
      simp [dropOpt]
    rw [stripRef_success ((d :: ds') ++ '.' :: ' ' :: rest) ((d :: ds') ++ '.' :: ' ' :: rest)
        ('.' :: ' ' :: rest) (by rw [h1, h2]) (by rw [h3]; rfl) (by rw [h4, h5])
        (Or.inl rfl)]
    simp [List.dropWhile_cons, show pySpace ' ' = true from by decide]

lemma stripRef_digits_paren (ds rest : List Char) (hne : ds ≠ [])
    (hd : ∀ c ∈ ds, pyDigit c = true) :
    stripRefNumberChars (ds ++ ')' :: ' ' :: rest) = rest.dropWhile pySpace := by
  rcases ds with _ | ⟨d, ds'⟩
  · exact absurd rfl hne
  · have hd0 : pyDigit d = true := hd d (by simp)
    have h1 : ((d :: ds') ++ ')' :: ' ' :: rest).dropWhile pySpace
        = (d :: ds') ++ ')' :: ' ' :: rest := by
      simp [List.dropWhile_cons, pyDigit_not_space hd0]
    have h2 : dropOpt '[' ((d :: ds') ++ ')' :: ' ' :: rest)
        = (d :: ds') ++ ')' :: ' ' :: rest := by
      simp [dropOpt, pyDigit_ne_bracket hd0]
    have h3 := takeWhile_append_stop pyDigit (d :: ds') ')' (' ' :: rest) hd pyDigit_paren
    have h4 := dropWhile_append_stop pyDigit (d :: ds') ')' (' ' :: rest) hd pyDigit_paren
    have h5 : dropOpt ']' (')' :: ' ' :: rest) = ')' :: ' ' :: rest := by
      simp [dropOpt]
    rw [stripRef_success ((d :: ds') ++ ')' :: ' ' :: rest) ((d :: ds') ++ ')' :: ' ' :: rest)
        (')' :: ' ' :: rest) (by rw [h1, h2]) (by rw [h3]; rfl) (by rw [h4, h5])
        (Or.inr rfl)]
    simp [List.dropWhile_cons, show pySpace ' ' = true from by decide]

lemma stripRef_bracket_dot (ds rest : List Char) (hne : ds ≠ [])
    (hd : ∀ c ∈ ds, pyDigit c = true) :
    stripRefNumberChars ('[' :: ds ++ ']' :: '.' :: ' ' :: rest) =
      rest.dropWhile pySpace := by
  have h1 : ('[' :: ds ++ ']' :: '.' :: ' ' :: rest).dropWhile pySpace
      = '[' :: ds ++ ']' :: '.' :: ' ' :: rest := by
    simp [List.dropWhile_cons, show pySpace '[' = false from by decide]
  have h2 : dropOpt '[' ('[' :: ds ++ ']' :: '.' :: ' ' :: rest)
      = ds ++ ']' :: '.' :: ' ' :: rest := by
    simp [dropOpt]
  have h3 := takeWhile_append_stop pyDigit ds ']' ('.' :: ' ' :: rest) hd pyDigit_rbracket
  have h4 := dropWhile_append_stop pyDigit ds ']' ('.' :: ' ' :: rest) hd pyDigit_rbracket
  have h5 : dropOpt ']' (']' :: '.' :: ' ' :: rest) = '.' :: ' ' :: rest := by
    simp [dropOpt]
  rw [stripRef_success ('[' :: ds ++ ']' :: '.' :: ' ' :: rest)
      (ds ++ ']' :: '.' :: ' ' :: rest) ('.' :: ' ' :: rest)
      (by rw [h1, h2]) (by rw [h3]; exact isEmpty_false_of_ne hne)
      (by rw [h4, h5]) (Or.inl rfl)]
  simp [List.dropWhile_cons, show pySpace ' ' = true from by decide]

lemma stripRef_bracket_only (ds rest : List Char) (hne : ds ≠ [])
    (hd : ∀ c ∈ ds, pyDigit c = true) :
    stripRefNumberChars ('[' :: ds ++ ']' :: ' ' :: rest) =
      '[' :: ds ++ ']' :: ' ' :: rest := by
  have h1 : ('[' :: ds ++ ']' :: ' ' :: rest).dropWhile pySpace
      = '[' :: ds ++ ']' :: ' ' :: rest := by
    simp [List.dropWhile_cons, show pySpace '[' = false from by decide]
  have h2 : dropOpt '[' ('[' :: ds ++ ']' :: ' ' :: rest)
      = ds ++ ']' :: ' ' :: rest := by
    simp [dropOpt]
  have h3 := takeWhile_append_stop pyDigit ds ']' (' ' :: rest) hd pyDigit_rbracket
  have h4 := dropWhile_append_stop pyDigit ds ']' (' ' :: rest) hd pyDigit_rbracket
  have h5 : dropOpt ']' (']' :: ' ' :: rest) = ' ' :: rest := by
    simp [dropOpt]
  exact stripRef_nosep ('[' :: ds ++ ']' :: ' ' :: rest) (ds ++ ']' :: ' ' :: rest)
    (' ' :: rest) (by rw [h1, h2]) (by rw [h3]; exact isEmpty_false_of_ne hne)
    (by rw [h4, h5]) (by simp)

lemma extractRefsAux_true_eq (l : List String) :
    extractRefsAux true l =
      l.filter (fun p => !matchReferencesPat p && !(p == "")) := by
  induction l with
  | nil => rfl
  | cons p rest ih =>
    by_cases h1 : matchReferencesPat p
    · simp [extractRefsAux, h1, ih, List.filter_cons]
    · by_cases h2 : p = "" <;> simp [extractRefsAux, h1, h2, ih, List.filter_cons]

lemma process_image_list_numbers (fsl : List ImgFile) :
    ∀ st : List ImgResult,
      ((process_image_list st fsl).fst.filter (fun r => r.success)).map
          (fun r => r.figure_number) =
        figNumbersFrom (st.length + 1) (countSucc fsl) := by
  induction fsl with
  | nil => intro st; simp [process_image_list, countSucc, figNumbersFrom]
  | cons f rest ih =>
    intro st
    rcases f with ⟨p, found, dec⟩
    cases found with
    | false =>
      simp [process_image_list, process_image, countSucc, List.filter_cons, ih st]
    | true =>
      cases dec with
      | false =>
        simp [process_image_list, process_image, countSucc, List.filter_cons, ih st]
      | true =>
        have h := ih (st ++ [⟨true, some (st.length + 1), p⟩])
        simp only [List.length_append, List.length_cons, List.length_nil] at h
        simp [process_image_list, process_image, countSucc, figNumbersFrom,
          List.filter_cons, h, Nat.add_comm, Nat.add_assoc, Nat.add_left_comm]

/-- C1 counterexample: in a full render pass with one reference and one
(successfully found) image, the LAST paragraph of the output document is
the figure caption, and the reference entry occurs BEFORE it (at index
2) — so references are not appended last, contradicting the claimed
order "sections, then images, then references".  The render pipeline of
`app.py` appends images (via `insert_images_at_positions`) after
`apply_springer_style` has already appended the references. -/
theorem C1_counterexample :
    ((processDocumentRender (fun _ => true)
        ⟨"T", [], ⟨"", 0, false⟩, [], [], ["Smith (2020)"]⟩
        [⟨"img.png", "cap"⟩]).doc.getLast? = some (.captionP "Fig. 1. cap")) ∧
    ((processDocumentRender (fun _ => true)
        ⟨"T", [], ⟨"", 0, false⟩, [], [], ["Smith (2020)"]⟩
        [⟨"img.png", "cap"⟩]).doc.get? 2 = some (.refP "[1] " "Smith (2020)")) := by
  decide

/-- C1 (amended): in one full render pass the output document receives
content in the fixed order title, authors, abstract, keywords, sections
in document order, then references, and all images are appended LAST
(after the references), with figure numbers starting at 1. -/
theorem C1_render_order (fs : String → Bool) (c : ParsedContent)
    (imgs : List ImageData) :
    (processDocumentRender fs c imgs).doc =
      (if c.title ≠ "" then [.titleP c.title] else []) ++
      (if ¬c.authors.isEmpty then [.authorsP (c.authors.map (·.name))] else []) ++
      (if c.abstract.text = "" then [] else [.abstractP c.abstract.text]) ++
      (if ¬c.keywords.isEmpty then [.keywordsP c.keywords] else []) ++
      (c.sections.map renderSectionBlock).flatten ++
      (if ¬c.references.isEmpty then
        .headingP "References" 1 :: refsBlock 1 c.references
      else []) ++
      imagesBlock fs 0 imgs := by
  rw [processDocumentRender_eq]
  simp [renderedDocSpec, List.append_assoc]

/-- C3 counterexample: the section type `acknowledgments` — one of the
canonical types of the fixed enumeration — is assigned heading level 2,
not 1: the membership list of `_get_heading_level` omits it. -/
theorem C3_counterexample :
    getHeadingLevel "acknowledgments" = 2 ∧ ¬getHeadingLevel "acknowledgments" = 1 := by
  decide

/-- C3 (amended): the renderer assigns heading level 1 exactly to the
seven canonical section types introduction, related_work, methodology,
results, discussion, conclusion, references and to numbered_section;
every other type — INCLUDING acknowledgments — gets level 2. -/
theorem C3_heading_levels :
    (∀ t : String, getHeadingLevel t = 1 ↔
      (t ∈ ["introduction", "related_work", "methodology", "results",
        "discussion", "conclusion", "references"] ∨ t = "numbered_section")) ∧
    getHeadingLevel "acknowledgments" = 2 := by
  refine ⟨fun t => ?_, by decide⟩
  unfold getHeadingLevel
  split_ifs with h1 h2 <;> simp_all

/-- C4 counterexample: a source reference with the bracket-only numeric
label `"[1] "` is NOT stripped (the strip regex requires a `.` or `)`
after the digits), so the rendered entry shows the new number AND the old
one — a doubled numbering, contradicting the claim's "[1] " example. -/
theorem C4_counterexample :
    stripRefNumber "[1] Smith, J." = "[1] Smith, J." ∧
    (add_references initApplier ["[1] Smith, J."]).doc =
      [.headingP "References" 1, .refP "[1] " "[1] Smith, J."] := by
  decide

/-- C4 (amended): `add_references` numbers the i-th rendered reference
with the bracketed sequential label `"[i]"` (i starting at 1), and strips
a pre-existing numeric label in which the digits are followed by `.` or
`)` — such as `"1. "`, `"1) "` or `"[1]. "` — but a bracket-only label
such as `"[1] "` (digits followed directly by a space) is left in place,
producing a doubled numbering for that form. -/
theorem C4_reference_numbering :
    (∀ (s : ApplierState) (refs : List String), ¬refs.isEmpty →
      (add_references s refs).doc =
        s.doc ++ DocElem.headingP "References" 1 :: refsBlock 1 refs) ∧
    (∀ (i k : Nat) (rs : List String) (r : String), rs.get? k = some r →
      (refsBlock i rs).get? k =
        some (.refP ("[" ++ toString (i + k) ++ "] ") (stripRefNumber r))) ∧
    (∀ (ds rest : List Char), ds ≠ [] → (∀ c ∈ ds, pyDigit c = true) →
      stripRefNumberChars (ds ++ '.' :: ' ' :: rest) = rest.dropWhile pySpace ∧
      stripRefNumberChars (ds ++ ')' :: ' ' :: rest) = rest.dropWhile pySpace ∧
      stripRefNumberChars ('[' :: ds ++ ']' :: '.' :: ' ' :: rest)
        = rest.dropWhile pySpace ∧
      stripRefNumberChars ('[' :: ds ++ ']' :: ' ' :: rest)
        = '[' :: ds ++ ']' :: ' ' :: rest) := by
  refine ⟨?_, ?_, ?_⟩
  · intro s refs h
    rw [add_references_eq refs s h]
  · intro i k rs r h
    exact refsBlock_get? rs i k r h
  · intro ds rest hne hd
    exact ⟨stripRef_digits_dot ds rest hne hd, stripRef_digits_paren ds rest hne hd,
      stripRef_bracket_dot ds rest hne hd, stripRef_bracket_only ds rest hne hd⟩

/-- C4 witness: the amended statement instantiated — references
`["1. A", "B"]` render as `"[1] A"` and `"[2] B"`, and the strip
behaviour on the four concrete label shapes with digits `['4', '2']`. -/
theorem C4_witness :
    (add_references initApplier ["1. A", "B"]).doc =
      [.headingP "References" 1, .refP "[1] " "A", .refP "[2] " "B"] ∧
    stripRefNumberChars ('4' :: '2' :: '.' :: ' ' :: 'X' :: []) = ['X'] := by
  constructor
  · have h1 := (C4_reference_numbering).1 initApplier ["1. A", "B"] (by decide)
    rw [h1]
    decide
  · have h2 := (C4_reference_numbering).2.2 ['4', '2'] ['X'] (by decide) (by decide)
    simpa using h2.1

/-- C5: the successfully processed images of `process_image_list` receive
figure numbers that are strictly sequential starting at 1 in input order;
a failed image neither consumes nor skips a number — interleaving one
failing input between two succeeding ones yields successes numbered 1 and
2, not 1 and 3. -/
theorem C5_figure_numbering :
    (∀ fsl : List ImgFile,
      ((process_image_list [] fsl).fst.filter (fun r => r.success)).map
          (fun r => r.figure_number) =
        figNumbersFrom 1 (countSucc fsl)) ∧
    ((process_image_list []
        [⟨"a.png", true, true⟩, ⟨"missing.png", false, true⟩,
          ⟨"b.png", true, true⟩]).fst.filter (fun r => r.success)).map
        (fun r => r.figure_number) = [some 1, some 2] := by
  refine ⟨fun fsl => ?_, by decide⟩
  simpa using process_image_list_numbers fsl []

/-- C6 counterexample: the paragraph `"7. References"` is NOT recognized
by the references heading pattern (which, unlike the body-section
patterns, accepts no leading number), so reference extraction collects
nothing after it. -/
theorem C6_counterexample :
    matchReferencesPat "7. References" = false ∧
    extract_references ["7. References", "Smith, J.: Title. In: Proc. (2020)"] = [] := by
  decide

/-- C6 (amended): the references pattern accepts NO leading number — a
paragraph `"7. References"` is not the references heading (section
detection classifies it as a generic numbered_section instead) and
reference extraction treats it as an ordinary paragraph; a bare
`"References"` paragraph is recognized, after which every subsequent
non-empty paragraph that is not itself a references heading is collected
as a reference entry. -/
theorem C6_references_pattern :
    matchReferencesPat "References" = true ∧
    matchReferencesPat "7. References" = false ∧
    getSectionType "7. References" = some "numbered_section" ∧
    (∀ rest : List String,
      extract_references ("7. References" :: rest) = extract_references rest) ∧
    (∀ rest : List String,
      extract_references ("References" :: rest) =
        rest.filter (fun p => !matchReferencesPat p && !(p == ""))) := by
  refine ⟨by decide, by decide, by decide, fun rest => ?_, fun rest => ?_⟩
  · simp [extract_references, extractRefsAux, show matchReferencesPat "7. References"
      = false from by decide]
  · simp [extract_references, extractRefsAux, show matchReferencesPat "References"
      = true from by decide, extractRefsAux_true_eq]

/-- C9 counterexample: two parsed contents identical except that one has
a section and the other has none produce the SAME changes log but
different documents — the heading and body formatting applied for the
section appends no log entry, so the log does not enumerate every
stylistic decision actually applied. -/
theorem C9_counterexample :
    ((apply_springer_style initApplier
        ⟨"T", [], ⟨"", 0, false⟩, [],
          [⟨"introduction", "Introduction", "Some body.", 1⟩], []⟩).changes_log =
      (apply_springer_style initApplier
        ⟨"T", [], ⟨"", 0, false⟩, [], [], []⟩).changes_log) ∧
    ((apply_springer_style initApplier
        ⟨"T", [], ⟨"", 0, false⟩, [],
          [⟨"introduction", "Introduction", "Some body.", 1⟩], []⟩).doc ≠
      (apply_springer_style initApplier
        ⟨"T", [], ⟨"", 0, false⟩, [], [], []⟩).doc) := by
  decide

/-- C9 (amended): during a render pass the changes log receives exactly
one entry for the page margins and exactly one entry per non-empty
top-level field (title, authors, abstract, keywords, references), and an
empty field is skipped and logs nothing — so two renders identical except
for empty abstract/keywords/authors differ only by the absence of those
entries; section headings and body paragraphs, however, append no log
entry at all. -/
theorem C9_changes_log (c : ParsedContent) :
    (apply_springer_style initApplier c).changes_log = changesLogSpec c := by
  rw [apply_springer_style_eq]
  simp [initApplier]

/-- C10: calling `add_figure` with an image path that does not exist
still increments the figure counter by exactly one, appends exactly one
caption paragraph whose text begins with `"Fig. N. "` for the incremented
counter `N`, and appends exactly one changes-log entry — and no picture
element is inserted. -/
theorem C10_missing_image (fs : String → Bool) (s : ApplierState)
    (path : String) (caption : Option String) (h : fs path = false) :
    add_figure fs s path caption =
      { s with
        figure_counter := s.figure_counter + 1,
        doc := s.doc ++ [.captionP ("Fig. " ++ toString (s.figure_counter + 1) ++ ". " ++ captionTextOf caption (s.figure_counter + 1))],
        changes_log := s.changes_log ++ ["Figure " ++ toString (s.figure_counter + 1) ++ " inserted with caption"] } := by
  simp [add_figure, h]

/-- C10 witness: the missing-image behaviour at a concrete state. -/
theorem C10_witness :
    add_figure (fun _ => false) initApplier "img.png" (some "cap") =
      ⟨1, 0, ["Figure 1 inserted with caption"], [.captionP "Fig. 1. cap"]⟩ := by
  rw [C10_missing_image (fun _ => false) initApplier "img.png" (some "cap") rfl]
  decide

lemma countTokensAux_dropWhile (l : List Char) :
    countTokensAux (l.dropWhile pySpace) true = countTokensAux l true := by
  induction l with
  | nil => rfl
  | cons c cs ih =>
    by_cases h : pySpace c = true
    · simp [List.dropWhile_cons, h, countTokensAux, ih]
    · simp [List.dropWhile_cons, h, countTokensAux]

lemma countTokensAux_allspace (t : List Char) (ht : ∀ c ∈ t, pySpace c = true) :
    ∀ b, countTokensAux t b = 0 := by
  induction t with
  | nil => intro b; rfl
  | cons c cs ih =>
    intro b
    simp [countTokensAux, ht c (by simp), ih (fun x hx => ht x (by simp [hx]))]

lemma countTokensAux_append_allspace (t : List Char)
    (ht : ∀ c ∈ t, pySpace c = true) (l : List Char) :
    ∀ b, countTokensAux (l ++ t) b = countTokensAux l b := by
  induction l with
  | nil =>
    intro b
    simp [countTokensAux, countTokensAux_allspace t ht b]
  | cons c cs ih =>
    intro b
    by_cases h : pySpace c = true <;> simp [countTokensAux, h, ih]

lemma countTokens_pyStrip (l : List Char) :
    countTokens (pyStrip l) = countTokens l := by
  unfold countTokens pyStrip
  have hdecomp : l.dropWhile pySpace =
      ((l.dropWhile pySpace).reverse.dropWhile pySpace).reverse ++
        ((l.dropWhile pySpace).reverse.takeWhile pySpace).reverse := by
    rw [← List.reverse_append, List.takeWhile_append_dropWhile, List.reverse_reverse]
  have hsp : ∀ c ∈ ((l.dropWhile pySpace).reverse.takeWhile pySpace).reverse,
      pySpace c = true := by
    intro c hc
    exact List.mem_takeWhile_imp (List.mem_reverse.mp hc)
  calc countTokensAux (((l.dropWhile pySpace).reverse.dropWhile pySpace).reverse) true
      = countTokensAux
          (((l.dropWhile pySpace).reverse.dropWhile pySpace).reverse ++
            ((l.dropWhile pySpace).reverse.takeWhile pySpace).reverse) true :=
        (countTokensAux_append_allspace _ hsp _ true).symm
    _ = countTokensAux (l.dropWhile pySpace) true := by rw [← hdecomp]
    _ = countTokensAux l true := countTokensAux_dropWhile l

/-- C7: the abstract record returned by `extract_abstract` has a
word_count equal to the number of whitespace-delimited tokens of the
extracted abstract text (0 when no abstract is found), and is_valid holds
exactly when 150 ≤ word_count ≤ 250. -/
theorem C7_abstract_word_count (P : List String) :
    (extract_abstract P).word_count = countTokens (extract_abstract P).text.data ∧
    ((extract_abstract P).is_valid = true ↔
      150 ≤ (extract_abstract P).word_count ∧ (extract_abstract P).word_count ≤ 250) := by
  unfold extract_abstract
  constructor
  · by_cases h : (extractAbstractAux P [] false).isEmpty = true
    · have ht : extractAbstractAux P [] false = [] := by
        cases he : extractAbstractAux P [] false
        · rfl
        · rw [he] at h
          simp at h
      simp [ht, pyStrip, countTokens, countTokensAux]
    · simp only [h, if_false, Bool.false_eq_true]
      exact (countTokens_pyStrip (extractAbstractAux P [] false)).symm
  · simp

lemma pySplitOn_ne_nil (d : Char → Bool) (l : List Char) : pySplitOn d l ≠ [] := by
  induction l with
  | nil => simp [pySplitOn]
  | cons c cs ih =>
    by_cases h : d c = true
    · simp [pySplitOn, h]
    · simp only [pySplitOn, h, Bool.false_eq_true, if_false]
      cases hS : pySplitOn d cs with
      | nil => exact absurd hS ih
      | cons r rs => simp

lemma pySplitOn_cons_delim {d : Char → Bool} {c : Char} (l : List Char)
    (h : d c = true) : pySplitOn d (c :: l) = [] :: pySplitOn d l := by
  simp [pySplitOn, h]

lemma pySplitOn_cons_nodelim {d : Char → Bool} {c : Char} (l : List Char)
    (h : d c = false) :
    pySplitOn d (c :: l) = (pySplitOn d l).modifyHead (fun r => c :: r) := by
  simp only [pySplitOn, h, Bool.false_eq_true, if_false]
  cases hS : pySplitOn d l with
  | nil => exact absurd hS (pySplitOn_ne_nil d l)
  | cons r rs => simp

lemma pySplitOn_append_nodelim (d : Char → Bool) (a l : List Char)
    (ha : ∀ c ∈ a, d c = false) :
    pySplitOn d (a ++ l) = (pySplitOn d l).modifyHead (fun r => a ++ r) := by
  induction a with
  | nil =>
    cases hS : pySplitOn d l with
    | nil => simp [hS]
    | cons r rs => simp [hS]
  | cons c a' ih =>
    rw [List.cons_append, pySplitOn_cons_nodelim _ (ha c (by simp)),
      ih (fun x hx => ha x (by simp [hx]))]
    cases hS : pySplitOn d l with
    | nil => exact absurd hS (pySplitOn_ne_nil d l)
    | cons r rs => simp

lemma pySplitOn_nodelim_single (d : Char → Bool) (a : List Char)
    (ha : ∀ c ∈ a, d c = false) : pySplitOn d a = [a] := by
  have h := pySplitOn_append_nodelim d a [] ha
  simpa [pySplitOn] using h

lemma pyStrip_cons_space (x : List Char) : pyStrip (' ' :: x) = pyStrip x := by
  simp [pyStrip, List.dropWhile_cons, show pySpace ' ' = true from by decide]

lemma pyStrip_self_parts {t : List Char} (h : pyStrip t = t) :
    t.dropWhile pySpace = t ∧ t.reverse.dropWhile pySpace = t.reverse := by
  have h1 : (t.dropWhile pySpace).length ≤ t.length :=
    (List.dropWhile_suffix pySpace).length_le
  have h2 : ((t.dropWhile pySpace).reverse.dropWhile pySpace).length ≤
      (t.dropWhile pySpace).length := by
    simpa using (List.dropWhile_suffix (l := (t.dropWhile pySpace).reverse) pySpace).length_le
  have hlen : (pyStrip t).length = t.length := by rw [h]
  have hlen2 : (pyStrip t).length =
      ((t.dropWhile pySpace).reverse.dropWhile pySpace).length := by
    simp [pyStrip]
  have e1 : (t.dropWhile pySpace).length = t.length := by omega
  have hdw : t.dropWhile pySpace = t :=
    (List.dropWhile_suffix pySpace).eq_of_length e1
  refine ⟨hdw, ?_⟩
  have h' : ((t.dropWhile pySpace).reverse.dropWhile pySpace).reverse = t := h
  rw [hdw] at h'
  have := congrArg List.reverse h'
  simpa using this

lemma head_not_space_of_dropWhile {c : Char} {t' : List Char}
    (h : (c :: t').dropWhile pySpace = c :: t') : pySpace c = false := by
  by_contra hcc
  rw [Bool.not_eq_false] at hcc
  rw [List.dropWhile_cons, if_pos (by simp [hcc])] at h
  have hle : (t'.dropWhile pySpace).length ≤ t'.length :=
    (List.dropWhile_suffix pySpace).length_le
  rw [h] at hle
  simp at hle

lemma pyStrip_append_space {t : List Char} (hne : t ≠ []) (h : pyStrip t = t) :
    pyStrip (t ++ [' ']) = t := by
  obtain ⟨hdw, hrv⟩ := pyStrip_self_parts h
  have hd_all : (t ++ [' ']).dropWhile pySpace = t ++ [' '] := by
    rcases t with _ | ⟨c, t'⟩
    · exact absurd rfl hne
    · have hc := head_not_space_of_dropWhile hdw
      rw [List.cons_append, List.dropWhile_cons, if_neg (by simp [hc])]
  unfold pyStrip
  rw [hd_all]
  rw [show (t ++ [' ']).reverse = ' ' :: t.reverse by simp]
  rw [List.dropWhile_cons, if_pos (by decide)]
  rw [hrv, List.reverse_reverse]

/-- C8: keyword extraction round-trips with the renderer's joining — for
a list of non-empty trimmed tokens containing none of the delimiter
characters `, ; · •`, splitting the `" · "`-joined string on the
delimiter set, trimming, and dropping empties reproduces the token
list. -/
theorem C8_keyword_roundtrip (toks : List (List Char))
    (h : ∀ t ∈ toks, t ≠ [] ∧ pyStrip t = t ∧ ∀ c ∈ t, kwDelim c = false) :
    splitKeywordText (joinKeywords toks) = toks := by
  induction toks with
  | nil => rfl
  | cons t rest ih =>
    obtain ⟨hne, hstrip, hnd⟩ := h t (by simp)
    cases rest with
    | nil =>
      have hsplit : pySplitOn kwDelim t = [t] :=
        pySplitOn_nodelim_single kwDelim t hnd
      simp [joinKeywords, splitKeywordText, hsplit, hstrip,
        isEmpty_false_of_ne hne]
    | cons t2 rest2 =>
      have ih2 := ih (fun x hx => h x (List.mem_cons_of_mem t hx))
      have hjoin : joinKeywords (t :: t2 :: rest2) =
          (t ++ [' ']) ++ '·' :: ' ' :: joinKeywords (t2 :: rest2) := by
        simp [joinKeywords]
      have hsp1 : ∀ c ∈ t ++ [' '], kwDelim c = false := by
        intro c hc
        rcases List.mem_append.mp hc with hc | hc
        · exact hnd c hc
        · simp at hc
          subst hc
          decide
      unfold splitKeywordText at ih2 ⊢
      rw [hjoin, pySplitOn_append_nodelim kwDelim _ _ hsp1,
        pySplitOn_cons_delim _ (by decide), pySplitOn_cons_nodelim _ (by decide)]
      cases hS : pySplitOn kwDelim (joinKeywords (t2 :: rest2)) with
      | nil => exact absurd hS (pySplitOn_ne_nil _ _)
      | cons r rs =>
        rw [hS] at ih2
        simp only [List.modifyHead_cons, List.append_nil, List.map_cons] at ih2 ⊢
        rw [pyStrip_append_space hne hstrip, pyStrip_cons_space]
        rw [List.filter_cons, if_pos (by simp [isEmpty_false_of_ne hne])]
        rw [ih2]

/-- C8 witness: the round trip at the concrete token list
`["machine learning", "nlp"]` (as character lists). -/
theorem C8_witness :
    splitKeywordText (joinKeywords ["machine learning".data, "nlp".data]) =
      ["machine learning".data, "nlp".data] :=
  C8_keyword_roundtrip ["machine learning".data, "nlp".data] (by decide)

lemma detectAux_eq_pre :
    ∀ (paras : List String) (i : Nat) (cur : Option (String × String × Nat))
      (acc : List String),
      detectAux paras i cur acc = (detectAuxP paras i cur acc).map toDocSection := by
  intro paras
  induction paras with
  | nil =>
    intro i cur acc
    rcases cur with _ | ⟨t, ti, si⟩ <;> simp [detectAux, detectAuxP, toDocSection]
  | cons p rest ih =>
    intro i cur acc
    rcases cur with _ | ⟨t0, ti0, si0⟩ <;>
      cases hg : getSectionType p <;>
        simp [detectAux, detectAuxP, hg, ih, toDocSection]

lemma notHead_false_of_type {p : String} {t : String} (hg : getSectionType p = some t) :
    notHead p = false := by
  simp [notHead, hg]

lemma notHead_true_of_none {p : String} (hg : getSectionType p = none) :
    notHead p = true := by
  simp [notHead, hg]

lemma getSectionType_none_of_notHead {p : String} (h : notHead p = true) :
    getSectionType p = none := by
  cases hg : getSectionType p with
  | none => rfl
  | some t =>
    rw [notHead, hg] at h
    simp at h

lemma detectAuxP_someCur :
    ∀ (paras : List String) (i : Nat) (τ ti : String) (si : Nat) (acc : List String),
      detectAuxP paras i (some (τ, ti, si)) acc =
        ⟨τ, ti, acc ++ paras.takeWhile notHead, si⟩ ::
          detectAuxP (paras.dropWhile notHead)
            (i + (paras.takeWhile notHead).length) none [] := by
  intro paras
  induction paras with
  | nil => intro i τ ti si acc; simp [detectAuxP]
  | cons p rest ih =>
    intro i τ ti si acc
    cases hg : getSectionType p with
    | some t =>
      have hn := notHead_false_of_type hg
      simp only [detectAuxP, hg, List.takeWhile_cons, List.dropWhile_cons, hn,
        Bool.false_eq_true, if_false, List.append_nil, List.length_nil, Nat.add_zero]
    | none =>
      have hn := notHead_true_of_none hg
      simp only [detectAuxP, hg, List.takeWhile_cons, List.dropWhile_cons, hn, if_true]
      rw [ih (i + 1) τ ti si (acc ++ [p])]
      simp [List.append_assoc, List.length_cons, Nat.add_assoc, Nat.add_comm,
        Nat.add_left_comm]

lemma detectAuxP_none_unfold :
    ∀ (paras : List String) (i : Nat) (acc : List String) (t : String)
      (rest : List String) (τ : String),
      paras.dropWhile notHead = t :: rest → getSectionType t = some τ →
      detectAuxP paras i none acc =
        ⟨τ, t, rest.takeWhile notHead, i + (paras.takeWhile notHead).length⟩ ::
          detectAuxP (rest.dropWhile notHead)
            (i + (paras.takeWhile notHead).length + 1 +
              (rest.takeWhile notHead).length) none [] := by
  intro paras
  induction paras with
  | nil =>
    intro i acc t rest τ hdrop hτ
    simp at hdrop
  | cons p ps ih =>
    intro i acc t rest τ hdrop hτ
    by_cases hnh : notHead p = true
    · have hg := getSectionType_none_of_notHead hnh
      rw [List.dropWhile_cons, if_pos (by simp [hnh])] at hdrop
      simp only [detectAuxP, hg]
      rw [ih (i + 1) acc t rest τ hdrop hτ]
      rw [List.takeWhile_cons, if_pos (by simp [hnh])]
      simp only [List.length_cons]
      have e1 : (i + 1) + (ps.takeWhile notHead).length =
          i + ((ps.takeWhile notHead).length + 1) := by omega
      rw [e1]
    · rw [Bool.not_eq_true] at hnh
      rw [List.dropWhile_cons, if_neg (by simp [hnh])] at hdrop
      injection hdrop with hpt hps
      subst hpt
      subst hps
      have hg : getSectionType p = some τ := hτ
      simp only [detectAuxP, hg]
      rw [detectAuxP_someCur]
      rw [List.takeWhile_cons, if_neg (by simp [hnh])]
      simp only [List.length_nil, Nat.add_zero, List.nil_append]

lemma detectAuxP_starts :
    ∀ (paras : List String) (i : Nat) (acc : List String),
      ((detectAuxP paras i none acc).map (fun q => q.start_index) =
        headIdxs paras i) ∧
      (∀ (τ ti : String) (si : Nat),
        (detectAuxP paras i (some (τ, ti, si)) acc).map (fun q => q.start_index) =
          si :: headIdxs paras i) := by
  intro paras
  induction paras with
  | nil =>
    intro i acc
    constructor
    · rfl
    · intro τ ti si; rfl
  | cons p rest ih =>
    intro i acc
    cases hg : getSectionType p with
    | some t =>
      constructor
      · simp only [detectAuxP, hg, headIdxs, Option.isSome_some, if_true]
        exact (ih (i + 1) []).2 t p i
      · intro τ ti si
        simp only [detectAuxP, hg, headIdxs, Option.isSome_some, if_true,
          List.map_cons]
        rw [(ih (i + 1) []).2 t p i]
    | none =>
      constructor
      · simp only [detectAuxP, hg, headIdxs, Option.isSome_none,
          Bool.false_eq_true, if_false]
        exact (ih (i + 1) acc).1
      · intro τ ti si
        simp only [detectAuxP, hg, headIdxs, Option.isSome_none,
          Bool.false_eq_true, if_false]
        exact (ih (i + 1) (acc ++ [p])).2 τ ti si

lemma headIdxs_ge :
    ∀ (paras : List String) (i j : Nat), j ∈ headIdxs paras i → i ≤ j := by
  intro paras
  induction paras with
  | nil => intro i j h; simp [headIdxs] at h
  | cons p rest ih =>
    intro i j h
    by_cases hg : (getSectionType p).isSome = true
    · rw [headIdxs, if_pos hg] at h
      rcases List.mem_cons.mp h with rfl | h2
      · exact Nat.le_refl j
      · exact Nat.le_of_succ_le (ih (i + 1) j h2)
    · rw [headIdxs, if_neg hg] at h
      exact Nat.le_of_succ_le (ih (i + 1) j h)

lemma headIdxs_pairwise :
    ∀ (paras : List String) (i : Nat), (headIdxs paras i).Pairwise (· < ·) := by
  intro paras
  induction paras with
  | nil => intro i; simp [headIdxs]
  | cons p rest ih =>
    intro i
    by_cases hg : (getSectionType p).isSome = true
    · rw [headIdxs, if_pos hg]
      exact List.Pairwise.cons
        (fun j hj => Nat.lt_of_succ_le (headIdxs_ge rest (i + 1) j hj)) (ih (i + 1))
    · rw [headIdxs, if_neg hg]
      exact ih (i + 1)

lemma headIdxs_mem_iff :
    ∀ (paras : List String) (i k : Nat) (hk : k < paras.length),
      ((i + k) ∈ headIdxs paras i ↔
        (getSectionType (paras.get ⟨k, hk⟩)).isSome = true) := by
  intro paras
  induction paras with
  | nil => intro i k hk; simp at hk
  | cons p rest ih =>
    intro i k hk
    cases k with
    | zero =>
      by_cases hg : (getSectionType p).isSome = true
      · simp [headIdxs, hg]
      · rw [headIdxs, if_neg hg]
        simp only [Nat.add_zero, List.get]
        constructor
        · intro hmem
          exact absurd (headIdxs_ge rest (i + 1) i hmem) (by omega)
        · intro hc
          exact absurd hc hg
    | succ k =>
      have hk2 : k < rest.length := by simpa using hk
      have := ih (i + 1) k hk2
      by_cases hg : (getSectionType p).isSome = true
      · rw [headIdxs, if_pos hg]
        rw [List.mem_cons]
        constructor
        · intro hmem
          rcases hmem with he | hmem
          · omega
          · exact this.mp (by
              have e : i + (k + 1) = (i + 1) + k := by omega
              rw [e] at hmem
              exact hmem)
        · intro hc
          right
          have e : (i + 1) + k = i + (k + 1) := by omega
          rw [← e]
          exact this.mpr hc
      · rw [headIdxs, if_neg hg]
        have e : i + (k + 1) = (i + 1) + k := by omega
        rw [e]
        exact this

lemma detectAuxP_nil_of_all :
    ∀ (paras : List String) (i : Nat) (acc : List String),
      (∀ p ∈ paras, notHead p = true) → detectAuxP paras i none acc = [] := by
  intro paras
  induction paras with
  | nil => intro i acc _; rfl
  | cons p ps ih =>
    intro i acc h
    have hg := getSectionType_none_of_notHead (h p (by simp))
    simp only [detectAuxP, hg]
    exact ih (i + 1) acc (fun x hx => h x (by simp [hx]))

lemma dropWhile_head_false {α} (p : α → Bool) :
    ∀ (l : List α) (t : α) (rest : List α), l.dropWhile p = t :: rest → p t = false := by
  intro l
  induction l with
  | nil => intro t rest h; simp at h
  | cons c cs ih =>
    intro t rest h
    by_cases hc : p c = true
    · rw [List.dropWhile_cons, if_pos (by simp [hc])] at h
      exact ih t rest h
    · rw [List.dropWhile_cons, if_neg (by simp [hc])] at h
      injection h with h1 h2
      subst h1
      simpa using hc

lemma dropWhile_idem {α} (p : α → Bool) (l : List α) :
    (l.dropWhile p).dropWhile p = l.dropWhile p := by
  cases h : l.dropWhile p with
  | nil => rfl
  | cons t rest =>
    rw [List.dropWhile_cons, if_neg (by simp [dropWhile_head_false p l t rest h])]

lemma takeWhile_dropWhile_nil {α} (p : α → Bool) (l : List α) :
    (l.dropWhile p).takeWhile p = [] := by
  cases h : l.dropWhile p with
  | nil => rfl
  | cons t rest =>
    rw [List.takeWhile_cons, if_neg (by simp [dropWhile_head_false p l t rest h])]

lemma length_takeWhile_add_dropWhile {α} (p : α → Bool) (l : List α) :
    (l.takeWhile p).length + (l.dropWhile p).length = l.length := by
  rw [← List.length_append, List.takeWhile_append_dropWhile]

lemma detectP_inv :
    ∀ (n : Nat) (paras : List String) (i : Nat), paras.length ≤ n →
      (paras.dropWhile notHead =
        ((detectAuxP paras i none []).map sectionGroup).flatten) ∧
      (∀ q, (detectAuxP paras i none []).head? = some q →
        q.start_index = i + (paras.takeWhile notHead).length) ∧
      (∀ k qa qb, (detectAuxP paras i none []).get? k = some qa →
        (detectAuxP paras i none []).get? (k + 1) = some qb →
        qb.start_index = qa.start_index + 1 + qa.contentParas.length) ∧
      (∀ q, (detectAuxP paras i none []).getLast? = some q →
        i + paras.length = q.start_index + 1 + q.contentParas.length) := by
  intro n
  induction n with
  | zero =>
    intro paras i hlen
    have hp : paras = [] := List.length_eq_zero.mp (Nat.le_zero.mp hlen)
    subst hp
    refine ⟨rfl, ?_, ?_, ?_⟩ <;> intros <;> simp_all [detectAuxP]
  | succ n ih =>
    intro paras i hlen
    cases hdw : paras.dropWhile notHead with
    | nil =>
      have hall : ∀ p ∈ paras, notHead p = true := by
        intro p hp
        exact List.dropWhile_eq_nil_iff.mp hdw p hp
      have hS : detectAuxP paras i none [] = [] :=
        detectAuxP_nil_of_all paras i [] hall
      rw [hS]
      refine ⟨by simp, ?_, ?_, ?_⟩ <;> intros <;> simp_all
    | cons t rest =>
      have hnh : notHead t = false := dropWhile_head_false notHead paras t rest hdw
      obtain ⟨τ, hτ⟩ : ∃ τ, getSectionType t = some τ := by
        cases hg : getSectionType t with
        | none => rw [notHead_true_of_none hg] at hnh; simp at hnh
        | some τ => exact ⟨τ, rfl⟩
      have hlen1 : (paras.takeWhile notHead).length + (rest.length + 1) = paras.length := by
        have := length_takeWhile_add_dropWhile notHead paras
        rw [hdw] at this
        simpa using this
      have hlen2 : (rest.dropWhile notHead).length ≤ n := by
        have h1 : (rest.dropWhile notHead).length ≤ rest.length :=
          (List.dropWhile_suffix notHead).length_le
        omega
      have hunfold := detectAuxP_none_unfold paras i [] t rest τ hdw hτ
      obtain ⟨ih1, ih2, ih3, ih4⟩ :=
        ih (rest.dropWhile notHead)
          (i + (paras.takeWhile notHead).length + 1 + (rest.takeWhile notHead).length)
          hlen2
      rw [dropWhile_idem] at ih1
      have hrest : rest.takeWhile notHead ++ (rest.dropWhile notHead) = rest :=
        List.takeWhile_append_dropWhile notHead rest
      refine ⟨?_, ?_, ?_, ?_⟩
      · rw [hunfold]
        simp only [List.map_cons, List.flatten_cons, sectionGroup]
        rw [← ih1]
        rw [show (t :: rest.takeWhile notHead) ++ rest.dropWhile notHead
            = t :: (rest.takeWhile notHead ++ rest.dropWhile notHead) from rfl]
        rw [hrest]
      · intro q hq
        rw [hunfold] at hq
        simp only [List.head?_cons, Option.some.injEq] at hq
        rw [← hq]
      · intro k qa qb hqa hqb
        rw [hunfold] at hqa hqb
        cases k with
        | zero =>
          simp only [List.get?_cons_zero, Option.some.injEq] at hqa
          simp only [List.get?_cons_succ] at hqb
          have hhead : (detectAuxP (rest.dropWhile notHead)
              (i + (paras.takeWhile notHead).length + 1 +
                (rest.takeWhile notHead).length) none []).head? = some qb := by
            rw [← List.get?_zero]
            exact hqb
          have := ih2 qb hhead
          rw [takeWhile_dropWhile_nil] at this
          rw [← hqa]
          simp only [List.length_nil, Nat.add_zero] at this
          simp [this]
        | succ k =>
          simp only [List.get?_cons_succ] at hqa hqb
          exact ih3 k qa qb hqa hqb
      · intro q hq
        rw [hunfold] at hq
        cases hS' : detectAuxP (rest.dropWhile notHead)
            (i + (paras.takeWhile notHead).length + 1 +
              (rest.takeWhile notHead).length) none [] with
        | nil =>
          rw [hS'] at hq
          simp only [List.getLast?_singleton, Option.some.injEq] at hq
          have hrd : rest.dropWhile notHead = [] := by
            rw [ih1, hS']
            simp
          have hblen : (rest.takeWhile notHead).length = rest.length := by
            have := length_takeWhile_add_dropWhile notHead rest
            rw [hrd] at this
            simpa using this
          rw [← hq]
          simp only []
          omega
        | cons q1 S'' =>
          rw [hS'] at hq
          rw [List.getLast?_cons_cons] at hq
          have := ih4 q (by rw [hS']; exact hq)
          have hlen3 : (rest.takeWhile notHead).length +
              (rest.dropWhile notHead).length = rest.length :=
            length_takeWhile_add_dropWhile notHead rest
          omega

lemma drop_start_aux (P : List String) (S : List PreSection)
    (F1 : P.dropWhile notHead = (S.map sectionGroup).flatten)
    (F2 : ∀ q, S.head? = some q → q.start_index = (P.takeWhile notHead).length)
    (F3 : ∀ k qa qb, S.get? k = some qa → S.get? (k + 1) = some qb →
      qb.start_index = qa.start_index + 1 + qa.contentParas.length) :
    ∀ k q, S.get? k = some q →
      P.drop q.start_index = ((S.drop k).map sectionGroup).flatten := by
  intro k
  induction k with
  | zero =>
    intro q hq
    rw [List.get?_zero] at hq
    rw [F2 q hq]
    have hsplitP := List.takeWhile_append_dropWhile notHead P
    have hd := List.drop_left (P.takeWhile notHead) (P.dropWhile notHead)
    rw [hsplitP] at hd
    rw [hd, F1]
    simp
  | succ k ihk =>
    intro qb hqb
    have hk1 : k + 1 < S.length := (List.get?_eq_some.mp hqb).1
    have hk : k < S.length := by omega
    have hqa : S.get? k = some (S.get ⟨k, hk⟩) := List.get?_eq_get hk
    have ih2 := ihk (S.get ⟨k, hk⟩) hqa
    have hstart := F3 k (S.get ⟨k, hk⟩) qb hqa hqb
    have hdropS : S.drop k = S.get ⟨k, hk⟩ :: S.drop (k + 1) :=
      List.drop_eq_get_cons hk
    rw [hdropS] at ih2
    simp only [List.map_cons, List.flatten_cons, sectionGroup] at ih2
    rw [hstart]
    have e : (S.get ⟨k, hk⟩).start_index + 1 + (S.get ⟨k, hk⟩).contentParas.length
        = (S.get ⟨k, hk⟩).start_index +
          ((S.get ⟨k, hk⟩).title :: (S.get ⟨k, hk⟩).contentParas).length := by
      simp only [List.length_cons]
      omega
    rw [e, ← List.drop_drop, ih2]
    rw [show ((S.get ⟨k, hk⟩).title :: (S.get ⟨k, hk⟩).contentParas) ++
        ((S.drop (k + 1)).map sectionGroup).flatten
        = ((S.get ⟨k, hk⟩).title :: (S.get ⟨k, hk⟩).contentParas) ++
          ((S.drop (k + 1)).map sectionGroup).flatten from rfl]
    exact List.drop_left _ _

lemma interval_exists_from :
    ∀ (fuel : Nat) (P : List String) (S : List DocSection) (j k : Nat)
      (s : DocSection), S.length - k ≤ fuel → S.get? k = some s →
      s.start_index ≤ j → j < P.length →
      ∃ k', k ≤ k' ∧ ∃ s', S.get? k' = some s' ∧ s'.start_index ≤ j ∧
        j < nextBound P S k' := by
  intro fuel
  induction fuel with
  | zero =>
    intro P S j k s hfuel hk hs hj
    have := (List.get?_eq_some.mp hk).1
    omega
  | succ fuel ihf =>
    intro P S j k s hfuel hk hs hj
    by_cases hend : j < nextBound P S k
    · exact ⟨k, Nat.le_refl k, s, hk, hs, hend⟩
    · push_neg at hend
      cases hnext : S.get? (k + 1) with
      | none =>
        rw [nextBound, hnext] at hend
        have hPle : P.length ≤ j := hend
        omega
      | some s' =>
        have hnb : nextBound P S k = s'.start_index := by
          rw [nextBound, hnext]
        have hklen : k < S.length := (List.get?_eq_some.mp hk).1
        have hk1len : k + 1 < S.length := (List.get?_eq_some.mp hnext).1
        obtain ⟨k', hk', rest⟩ :=
          ihf P S j (k + 1) s' (by omega) hnext (by omega) hj
        exact ⟨k', by omega, rest⟩

lemma starts_mono (S : List DocSection)
    (hpw : (S.map (fun s => s.start_index)).Pairwise (· < ·)) :
    ∀ (ka kb : Nat) (a b : DocSection), ka < kb → S.get? ka = some a →
      S.get? kb = some b → a.start_index < b.start_index := by
  intro ka kb a b hlt ha hb
  obtain ⟨hka, hga⟩ := List.get?_eq_some.mp ha
  obtain ⟨hkb, hgb⟩ := List.get?_eq_some.mp hb
  have hmap := List.pairwise_iff_get.mp hpw
    ⟨ka, by simpa using hka⟩ ⟨kb, by simpa using hkb⟩ hlt
  rw [List.get_map, List.get_map] at hmap
  simp only at hmap
  rw [hga, hgb] at hmap
  exact hmap

lemma interval_unique_asym (P : List String) (S : List DocSection)
    (hpw : (S.map (fun s => s.start_index)).Pairwise (· < ·))
    (j k1 k2 : Nat) (hlt : k1 < k2)
    (h1 : ∃ s, S.get? k1 = some s ∧ s.start_index ≤ j ∧ j < nextBound P S k1)
    (h2 : ∃ s, S.get? k2 = some s ∧ s.start_index ≤ j ∧ j < nextBound P S k2) :
    False := by
  obtain ⟨s1, hs1, hle1, hlt1⟩ := h1
  obtain ⟨s2, hs2, hle2, _⟩ := h2
  have hk2len : k2 < S.length := (List.get?_eq_some.mp hs2).1
  have hk1len : k1 + 1 < S.length := by omega
  have hmid : S.get? (k1 + 1) = some (S.get ⟨k1 + 1, hk1len⟩) :=
    List.get?_eq_get hk1len
  have hnb : nextBound P S k1 = (S.get ⟨k1 + 1, hk1len⟩).start_index := by
    rw [nextBound, hmid]
  have hmidle : (S.get ⟨k1 + 1, hk1len⟩).start_index ≤ s2.start_index := by
    rcases Nat.eq_or_lt_of_le (Nat.succ_le_of_lt hlt) with heq | hlt2
    · have heq2 : k1 + 1 = k2 := heq
      rw [← heq2] at hs2
      rw [hmid] at hs2
      injection hs2 with h
      rw [h]
    · exact Nat.le_of_lt
        (starts_mono S hpw (k1 + 1) k2 (S.get ⟨k1 + 1, hk1len⟩) s2 hlt2 hmid hs2)
  omega

/-- C2: for every paragraph list, the sections returned by
`detect_sections` have strictly increasing start_index values; each
section's content is exactly the paragraphs strictly between its heading
and the next heading (joined by newline, running to the end of the input
for the last section); the start indices are exactly the indices of the
heading paragraphs; and every paragraph index from the first heading on
lies in exactly one section's range — the ranges partition the suffix
with no gaps or overlaps. -/
theorem C2_detect_sections_partition (P : List String) :
    (((detect_sections P).map (fun s => s.start_index)).Pairwise (· < ·)) ∧
    (∀ k s, (detect_sections P).get? k = some s →
      s.content = String.intercalate "\n"
        ((P.drop (s.start_index + 1)).take
          (nextBound P (detect_sections P) k - s.start_index - 1))) ∧
    (∀ j (hj : j < P.length),
      ((∃ s ∈ detect_sections P, s.start_index = j) ↔
        (getSectionType (P.get ⟨j, hj⟩)).isSome = true)) ∧
    (∀ j s0, (detect_sections P).head? = some s0 → s0.start_index ≤ j →
      j < P.length →
      ∃! k : Nat, ∃ s, (detect_sections P).get? k = some s ∧
        s.start_index ≤ j ∧ j < nextBound P (detect_sections P) k) := by
  have hmap : detect_sections P = (detectAuxP P 0 none []).map toDocSection :=
    detectAux_eq_pre P 0 none []
  have hstarts : (detect_sections P).map (fun s => s.start_index) = headIdxs P 0 := by
    rw [hmap, List.map_map]
    have h := (detectAuxP_starts P 0 []).1
    rw [← h]
    rfl
  obtain ⟨F1, F2, F3, F4⟩ := detectP_inv P.length P 0 (Nat.le_refl P.length)
  have F2' : ∀ q, (detectAuxP P 0 none []).head? = some q →
      q.start_index = (P.takeWhile notHead).length := by
    intro q hq
    have := F2 q hq
    omega
  have hpw : ((detect_sections P).map (fun s => s.start_index)).Pairwise (· < ·) := by
    rw [hstarts]
    exact headIdxs_pairwise P 0
  refine ⟨hpw, ?_, ?_, ?_⟩
  · intro k s hs
    rw [hmap, List.get?_map] at hs
    cases hq : (detectAuxP P 0 none []).get? k with
    | none => rw [hq] at hs; simp at hs
    | some q =>
      rw [hq] at hs
      simp at hs
      subst hs
      have hdropq := drop_start_aux P (detectAuxP P 0 none []) F1 F2' F3 k q hq
      have hk : k < (detectAuxP P 0 none []).length := (List.get?_eq_some.mp hq).1
      have hget : (detectAuxP P 0 none []).get ⟨k, hk⟩ = q := by
        have := List.get?_eq_get hk
        rw [hq] at this
        injection this with h
        exact h.symm
      have hdropS : (detectAuxP P 0 none []).drop k =
          q :: (detectAuxP P 0 none []).drop (k + 1) := by
        rw [List.drop_eq_get_cons hk, hget]
      rw [hdropS] at hdropq
      simp only [List.map_cons, List.flatten_cons, sectionGroup] at hdropq
      have hdrop1 : P.drop (q.start_index + 1) =
          q.contentParas ++
            (((detectAuxP P 0 none []).drop (k + 1)).map sectionGroup).flatten := by
       rw [← List.drop_drop, hdropq]
       rfl
      have hnbP : nextBound P (detect_sections P) k =
          nextBound P ((detectAuxP P 0 none []).map toDocSection) k := by
        rw [hmap]
      cases hnext : (detectAuxP P 0 none []).get? (k + 1) with
      | some qb =>
        have hnb : nextBound P (detect_sections P) k = qb.start_index := by
          rw [hnbP, nextBound, List.get?_map, hnext]
          rfl
        have hqb := F3 k q qb hq hnext
        have hamount : nextBound P (detect_sections P) k - q.start_index - 1 =
            q.contentParas.length := by
          rw [hnb]
          omega
        simp only [toDocSection]
        rw [hamount, hdrop1, List.take_left]
      | none =>
        have hnb : nextBound P (detect_sections P) k = P.length := by
          rw [hnbP, nextBound, List.get?_map, hnext]
          rfl
        have hlast : (detectAuxP P 0 none []).getLast? = some q := by
          have hk1 : (detectAuxP P 0 none []).length = k + 1 := by
            have h1 := List.get?_eq_none.mp hnext
            have h2 := (List.get?_eq_some.mp hq).1
            omega
          rw [List.getLast?_eq_get?, hk1]
          simpa using hq
        have hPlen := F4 q hlast
        have hdropnil : (detectAuxP P 0 none []).drop (k + 1) = [] :=
          List.drop_eq_nil_of_le (List.get?_eq_none.mp hnext)
        rw [hdropnil] at hdrop1
        simp only [List.map_nil, List.flatten_nil, List.append_nil] at hdrop1
        have hamount : nextBound P (detect_sections P) k - q.start_index - 1 =
            q.contentParas.length := by
          rw [hnb]
          omega
        simp only [toDocSection]
        rw [hamount, hdrop1, List.take_length]
  · intro j hj
    have hmem : (∃ s ∈ detect_sections P, s.start_index = j) ↔
        j ∈ (detect_sections P).map (fun s => s.start_index) := by
      rw [List.mem_map]
    rw [hmem, hstarts]
    have := headIdxs_mem_iff P 0 j hj
    rw [Nat.zero_add] at this
    exact this
  · intro j s0 hhead hle hj
    have hget0 : (detect_sections P).get? 0 = some s0 := by
      rw [List.get?_zero]
      exact hhead
    obtain ⟨k', _, hprop⟩ :=
      interval_exists_from ((detect_sections P).length) P (detect_sections P) j 0 s0
        (by omega) hget0 hle hj
    refine ⟨k', hprop, ?_⟩
    intro y hy
    by_contra hne
    rcases Nat.lt_or_ge y k' with hlt | hge
    · exact interval_unique_asym P (detect_sections P) hpw j y k' hlt hy hprop
    · have hlt : k' < y := by omega
      exact interval_unique_asym P (detect_sections P) hpw j k' y hlt hprop hy

/-- C2 witness: the partition theorem instantiated at a concrete
paragraph list — paragraph 1 ("1. Introduction") is the start index of a
detected section. -/
theorem C2_witness :
    ∃ s ∈ detect_sections
      ["A Study of X", "1. Introduction", "We begin.", "Conclusion", "Done."],
      s.start_index = 1 := by
  have h := (C2_detect_sections_partition
    ["A Study of X", "1. Introduction", "We begin.", "Conclusion", "Done."]).2.2.1
    1 (by decide)
  exact h.mpr (by decide)

end SpringerFormatter
